import Mathlib

/-!
Verification of the MarketDataCollector repository.

This file gives a shallow embedding, in Lean 4, of the core data-handling
code of the repository:

* `src/subscription/equity_metrics.py` — chunking, batched fetching,
  combining and bulk collection (`EquityMetrics`);
* `src/data/market_data_store.py` — the persistence operations
  (`MarketDataStore.store_candle_data`, `MarketDataStore.store_metric_data`);
* `src/subscription/market_data_subscription.py` — the streaming
  subscription lifecycle (`connect` / `stop` / `cleanup`) and the
  historical-download consumption loop (`download_historical_data`).

Python dictionaries are modelled as insertion-ordered association lists,
Python `None` / numbers / strings as an explicit value type, and raised
exceptions as `Except` results.  External collaborators (the Tastytrade
API, the asyncio event loop, the PostgreSQL connection) are modelled as
explicit environments supplying the outcome of each external call.
Real-time durations (sleep lengths, the 3-second stream timeout) are not
modelled; what is modelled is where a delay is inserted and which event
terminates a loop.
-/

namespace MarketDataCollector

/-- Ticker symbols are plain strings. -/
abbrev Symbol := String

/-! ## Python value model

Values stored in the dictionaries that flow through the program.
`PyLeaf` models scalar values (`None`, numbers, strings); `PyVal`
additionally models one level of nested dictionary (the `earnings`
sub-dictionary of a metrics `model_dump`).  Numbers are modelled as
rationals; Python `float(x)` on a number is modelled as the identity on
the numeric value, and non-numeric strings are not modelled as
float-coercible. -/

inductive PyLeaf where
  | none_ : PyLeaf
  | num (q : ℚ) : PyLeaf
  | str (s : String) : PyLeaf
deriving DecidableEq, Repr

inductive PyVal where
  | leaf (v : PyLeaf) : PyVal
  | dict (d : List (String × PyLeaf)) : PyVal
deriving DecidableEq, Repr

/-- A Python dictionary with string keys, as an insertion-ordered
association list. -/
abbrev PyDict := List (String × PyVal)

/-- Exceptions that the modelled code can raise. -/
inductive PyErr where
  | keyError : PyErr
  | typeError : PyErr
  | valueError : PyErr
  | zeroDivisionError : PyErr
  | attributeError : PyErr
  | apiError : PyErr
  | cancelledError : PyErr
  | other : PyErr
deriving DecidableEq, Repr

/-- `d.get(k)` on a Python dict: the first binding of `k`, defaulting to
`None` when the key is absent (Python's `.get` default). -/
def pyGet (d : PyDict) (k : String) : PyVal :=
  match d.find? (fun p => p.1 == k) with
  | some p => p.2
  | none => PyVal.leaf PyLeaf.none_

/-- `d[k]` on a Python dict: raises `KeyError` when the key is absent. -/
def pyGetItem (d : PyDict) (k : String) : Except PyErr PyVal :=
  match d.find? (fun p => p.1 == k) with
  | some p => Except.ok p.2
  | none => Except.error PyErr.keyError

/-- `.get(k)` on the one level of nested dictionary (the `earnings`
sub-dict), returning a scalar, defaulting to `None`. -/
def pySubGet (d : List (String × PyLeaf)) (k : String) : PyLeaf :=
  match d.find? (fun p => p.1 == k) with
  | some p => p.2
  | none => PyLeaf.none_

/-- Python truthiness of a value: `None`, `0`, `""` and `{}` are falsy. -/
def PyVal.truthy : PyVal → Bool
  | .leaf .none_ => false
  | .leaf (.num q) => q ≠ 0
  | .leaf (.str s) => s ≠ ""
  | .dict d => ¬ d.isEmpty

/-- `value.get(k)` where `value` came out of a dictionary: succeeds only
when the value is a dictionary, otherwise Python raises
`AttributeError` (a non-dict has no `.get`). -/
def pyAttrGet (v : PyVal) (k : String) : Except PyErr PyLeaf :=
  match v with
  | .dict d => Except.ok (pySubGet d k)
  | .leaf _ => Except.error PyErr.attributeError

/-- A fetched value that is a number or `None` — the shape numeric
fields of the API payloads take. -/
def NumOrNoneVal (v : PyVal) : Prop :=
  v = PyVal.leaf PyLeaf.none_ ∨ ∃ q, v = PyVal.leaf (PyLeaf.num q)


/-! ## Chunking (`EquityMetrics._chunk_symbols`)

```python
for i in range(0, len(symbols_list), chunk_size):
    yield symbols_list[i:i + chunk_size]
```

Each step takes the next `chunk_size` elements.  The Python generator
raises `ValueError` for `chunk_size = 0` (invalid `range` step); the
model returns `[]` in that out-of-contract case, and every statement
about it assumes `0 < chunk_size`. -/

def chunkSymbols {α : Type} (symbols_list : List α) (chunk_size : Nat) :
    List (List α) :=
  if chunk_size = 0 then []
  else
    (List.range ((symbols_list.length + chunk_size - 1) / chunk_size)).map
      (fun i => (symbols_list.drop (i * chunk_size)).take chunk_size)

/-! ## Records and combining (`EquityMetrics._combine_data`)

A metric object / market-data object from the API is its symbol together
with the dictionary its `model_dump()` produces (`hasattr(x,
'model_dump')` holds for both pydantic branches, so both branches of the
source produce that dictionary). -/

structure MetricsRec where
  symbol : Symbol
  payload : PyDict
deriving DecidableEq, Repr

structure MarketRec where
  symbol : Symbol
  payload : PyDict
deriving DecidableEq, Repr

/-- One entry of the combined result:
`{'symbol': ..., 'metrics': ...|None, 'market_data': ...|None}`. -/
structure CombinedRow where
  symbol : Symbol
  metrics : Option PyDict
  market_data : Option PyDict
deriving DecidableEq, Repr

/-- The `combined_data` dictionary, insertion ordered. -/
abbrev CombinedDict := List (Symbol × CombinedRow)

def dictKeys (d : CombinedDict) : List Symbol := d.map Prod.fst

def dictHasKey (d : CombinedDict) (k : Symbol) : Bool :=
  d.any (fun p => p.1 == k)

/-- Lookup in the combined dictionary (first binding of the key). -/
def findVal : CombinedDict → Symbol → Option CombinedRow
  | [], _ => none
  | p :: rest, s => if p.1 == s then some p.2 else findVal rest s

/-- In-place update of the value bound to key `k` (Python mutates the
dict entry, keeping its position). -/
def updValue (d : CombinedDict) (k : Symbol)
    (f : CombinedRow → CombinedRow) : CombinedDict :=
  d.map (fun p => if p.1 == k then (p.1, f p.2) else p)

/-- Python dict assignment `d[k] = v`: replace in place when the key
exists, else append (insertion order). -/
def dictSet (d : CombinedDict) (k : Symbol) (v : CombinedRow) :
    CombinedDict :=
  if dictHasKey d k then updValue d k (fun _ => v)
  else d ++ [(k, v)]

/-- One iteration of the first loop of `_combine_data`:
`combined_data[symbol] = {'symbol': symbol, 'metrics': dump,
'market_data': None}`. -/
def combineMetricsStep (acc : CombinedDict) (metric : MetricsRec) :
    CombinedDict :=
  dictSet acc metric.symbol ⟨metric.symbol, some metric.payload, none⟩

/-- One iteration of the second loop of `_combine_data`: if the symbol is
already a key, set the existing row's `'market_data'` field in place,
else insert a fresh row with `'metrics': None`. -/
def combineMarketStep (acc : CombinedDict) (equity : MarketRec) :
    CombinedDict :=
  if dictHasKey acc equity.symbol then
    updValue acc equity.symbol
      (fun r => { r with market_data := some equity.payload })
  else acc ++ [(equity.symbol, ⟨equity.symbol, none, some equity.payload⟩)]

/-- `EquityMetrics._combine_data`: seed the mapping from the metrics
records, then fold in the market-data records. -/
def combineData (metrics_data : List MetricsRec)
    (market_data : List MarketRec) : CombinedDict :=
  market_data.foldl combineMarketStep
    (metrics_data.foldl combineMetricsStep [])

/-! ## Batched fetching (`_fetch_metrics_in_batches`,
`_fetch_market_data_in_batches`)

The external API is an environment: for each chunk argument it either
returns a record list or raises.  Python's `enumerate(chunks, 1)` is
modelled with `List.enum` (zero based), so the "sleep unless last"
condition `i < len(chunks)` becomes `idx + 1 < chunks.length`.  The
`time.sleep` call sits inside the `try`, after the fetch, so a raised
fetch skips it; the model counts performed sleeps. -/

structure ApiEnv where
  metricsRet : List Symbol → Except PyErr (List MetricsRec)
  marketRet : List Symbol → Except PyErr (List MarketRec)
  sessionOk : Bool

/-- `EquityMetrics._fetch_metrics_in_batches`: chunk by 10, call
`get_market_metrics` per chunk, `continue` past a raised chunk, sleep
`delay_between_calls` after each non-last successful call when the delay
is positive.  Returns accumulated records and the number of sleeps. -/
def fetchMetricsInBatches (env : ApiEnv) (symbols_list : List Symbol)
    (delay_between_calls : ℚ) : List MetricsRec × Nat :=
  let chunks := chunkSymbols symbols_list 10
  chunks.enum.foldl
    (fun acc p =>
      match env.metricsRet p.2 with
      | Except.ok metrics_data =>
          (acc.1 ++ metrics_data,
            acc.2 +
              if p.1 + 1 < chunks.length ∧ 0 < delay_between_calls then 1
              else 0)
      | Except.error _ => acc)
    ([], 0)

/-- `EquityMetrics._fetch_market_data_in_batches`: same loop shape over
`get_market_data_by_type`. -/
def fetchMarketDataInBatches (env : ApiEnv) (symbols_list : List Symbol)
    (delay_between_calls : ℚ) : List MarketRec × Nat :=
  let chunks := chunkSymbols symbols_list 10
  chunks.enum.foldl
    (fun acc p =>
      match env.marketRet p.2 with
      | Except.ok market_data =>
          (acc.1 ++ market_data,
            acc.2 +
              if p.1 + 1 < chunks.length ∧ 0 < delay_between_calls then 1
              else 0)
      | Except.error _ => acc)
    ([], 0)

/-! ## Persistence (`MarketDataStore`) -/

/-- A value in an SQL insert parameter tuple: a coerced float, a coerced
integer, explicit null, or a value passed through as-is. -/
inductive SqlVal where
  | null : SqlVal
  | real (q : ℚ) : SqlVal
  | int (z : ℤ) : SqlVal
  | raw (v : PyVal) : SqlVal
deriving DecidableEq, Repr

/-- Python `float(x)` on a fetched value: numbers coerce to their value.
`float(None)` and `float(dict)` raise `TypeError`.  (Numeric strings,
which Python would parse, do not occur in this data; strings are
modelled as raising.) -/
def pyFloat : PyVal → Except PyErr ℚ
  | .leaf (.num q) => Except.ok q
  | .leaf (.str _) => Except.error PyErr.valueError
  | .leaf .none_ => Except.error PyErr.typeError
  | .dict _ => Except.error PyErr.typeError

/-- Python `int(x)`: truncation toward zero of a numeric value. -/
def pyInt : PyVal → Except PyErr ℤ
  | .leaf (.num q) => Except.ok (if 0 ≤ q then ⌊q⌋ else ⌈q⌉)
  | .leaf (.str _) => Except.error PyErr.valueError
  | .leaf .none_ => Except.error PyErr.typeError
  | .dict _ => Except.error PyErr.typeError

/-- `None if v is None else float(v)`. -/
def coerceFloat (v : PyVal) : Except PyErr SqlVal :=
  if v = PyVal.leaf PyLeaf.none_ then Except.ok SqlVal.null
  else (pyFloat v).map SqlVal.real

/-- `None if v is None else int(v)`. -/
def coerceInt (v : PyVal) : Except PyErr SqlVal :=
  if v = PyVal.leaf PyLeaf.none_ then Except.ok SqlVal.null
  else (pyInt v).map SqlVal.int

/-- `None if d[k] is None else float(d[k])` — bracket indexing, so an
absent key raises `KeyError` before any coercion. -/
def bracketCoerceFloat (d : PyDict) (k : String) : Except PyErr SqlVal := do
  let v ← pyGetItem d k
  coerceFloat v

/-- The insert parameters of `MarketDataStore.store_metric_data`, in
`equity_data` column order.  Every field is read with `.get`; numeric
fields are coerced with a `None` guard; `earnings_expected_date` and
`earnings_time_of_day` are passed as-is. -/
def storeMetricDataParams (metrics_data : PyDict) :
    Except PyErr (List SqlVal) := do
  let bid ← coerceFloat (pyGet metrics_data "bid")
  let ask ← coerceFloat (pyGet metrics_data "ask")
  let last_price ← coerceFloat (pyGet metrics_data "last_price")
  let close_price ← coerceFloat (pyGet metrics_data "close_price")
  let volume ← coerceInt (pyGet metrics_data "volume")
  let iv_index ← coerceFloat (pyGet metrics_data "iv_index")
  let iv_rank ← coerceFloat (pyGet metrics_data "iv_rank")
  let iv_percentile ← coerceFloat (pyGet metrics_data "iv_percentile")
  let liquidity_rating ← coerceFloat (pyGet metrics_data "liquidity_rating")
  let liquidity_value ← coerceFloat (pyGet metrics_data "liquidity_value")
  let iv_30_day ← coerceFloat (pyGet metrics_data "iv_30_day")
  let hv_30_day ← coerceFloat (pyGet metrics_data "hv_30_day")
  let iv_hv_difference ← coerceFloat (pyGet metrics_data "iv_hv_difference")
  let hv_60_day ← coerceFloat (pyGet metrics_data "hv_60_day")
  let hv_90_day ← coerceFloat (pyGet metrics_data "hv_90_day")
  let beta ← coerceFloat (pyGet metrics_data "beta")
  pure [SqlVal.raw (pyGet metrics_data "symbol"), bid, ask, last_price,
    close_price, volume, iv_index, iv_rank, iv_percentile,
    liquidity_rating, liquidity_value, iv_30_day, hv_30_day,
    iv_hv_difference, hv_60_day, hv_90_day, beta,
    SqlVal.raw (pyGet metrics_data "earnings_expected_date"),
    SqlVal.raw (pyGet metrics_data "earnings_time_of_day")]

/-- `MarketDataStore.store_metric_data`: the parameter tuple is built
before the `try`, so a coercion failure raises out of the function,
while the `execute_query` call is inside `try/except` — a database
failure (`dbOk = false`) is printed and swallowed.  The result is the
attempted insert row. -/
def storeMetricData (dbOk : Bool) (metrics_data : PyDict) :
    Except PyErr (List SqlVal) := do
  let params ← storeMetricDataParams metrics_data
  match dbOk with
  | true => pure params
  | false => pure params

/-- `MarketDataStore.store_candle_data`: `volume`, `bid_volume`,
`ask_volume` and `imp_volatility` are read with bracket indexing
(`KeyError` when absent) and float-coerced under a `None` guard; every
other field is read with `.get` and passed as-is; the `execute_query`
call is inside `try/except`. -/
def storeCandleData (dbOk : Bool) (candle_data : PyDict) :
    Except PyErr (List SqlVal) := do
  let volume ← bracketCoerceFloat candle_data "volume"
  let bid_volume ← bracketCoerceFloat candle_data "bid_volume"
  let ask_volume ← bracketCoerceFloat candle_data "ask_volume"
  let imp_volatility ← bracketCoerceFloat candle_data "imp_volatility"
  let params := [SqlVal.raw (pyGet candle_data "event_type"),
    SqlVal.raw (pyGet candle_data "event_symbol"),
    SqlVal.raw (pyGet candle_data "time"),
    SqlVal.raw (pyGet candle_data "open"),
    SqlVal.raw (pyGet candle_data "high"),
    SqlVal.raw (pyGet candle_data "low"),
    SqlVal.raw (pyGet candle_data "close"),
    volume, bid_volume, ask_volume, imp_volatility,
    SqlVal.raw (pyGet candle_data "iv_index"),
    SqlVal.raw (pyGet candle_data "iv_index_5_day_change"),
    SqlVal.raw (pyGet candle_data "iv_index_rank"),
    SqlVal.raw (pyGet candle_data "tos_iv_index_rank"),
    SqlVal.raw (pyGet candle_data "tw_iv_index_rank"),
    SqlVal.raw (pyGet candle_data "iv_percentile"),
    SqlVal.raw (pyGet candle_data "liquidity_rating"),
    SqlVal.raw (pyGet candle_data "beta"),
    SqlVal.raw (pyGet candle_data "corr_spy_3month"),
    SqlVal.raw (pyGet candle_data "liquidity_value"),
    SqlVal.raw (pyGet candle_data "liquidity_rank")]
  match dbOk with
  | true => pure params
  | false => pure params

/-- A parameter that psycopg2 sends as SQL `NULL`: the explicit guard
result, or a passed-through Python `None`. -/
def SqlVal.isNull : SqlVal → Bool
  | .null => true
  | .raw (.leaf .none_) => true
  | _ => false

/-! ## Per-symbol mapping and batch processing
(`_process_symbol_batch`) -/

/-- `data['metrics'].get(key) if data['metrics'] else None` — an absent
or empty metrics dump gives `None` either way. -/
def metricsField (data : CombinedRow) (key : String) : PyVal :=
  match data.metrics with
  | some m => pyGet m key
  | none => PyVal.leaf PyLeaf.none_

/-- `data['market_data'].get(key) if data['market_data'] else None`. -/
def marketField (data : CombinedRow) (key : String) : PyVal :=
  match data.market_data with
  | some m => pyGet m key
  | none => PyVal.leaf PyLeaf.none_

/-- The entry list of `metrics_dict` built per symbol in
`_process_symbol_batch`, parameterized by the two earnings scalars
extracted beforehand. -/
def mapRowList (symbol : Symbol) (data : CombinedRow)
    (earnings_expected earnings_tod : PyLeaf) : PyDict :=
  [("symbol", PyVal.leaf (PyLeaf.str symbol)),
    ("iv_rank", metricsField data "implied_volatility_index_rank"),
    ("iv_index", metricsField data "implied_volatility_index"),
    ("iv_percentile", metricsField data "implied_volatility_percentile"),
    ("liquidity_rating", metricsField data "liquidity_rating"),
    ("liquidity_value", metricsField data "liquidity_value"),
    ("iv_30_day", metricsField data "implied_volatility_30_day"),
    ("hv_30_day", metricsField data "historical_volatility_30_day"),
    ("iv_hv_difference", metricsField data "iv_hv_30_day_difference"),
    ("beta", metricsField data "beta"),
    ("hv_60_day", metricsField data "historical_volatility_60_day"),
    ("hv_90_day", metricsField data "historical_volatility_90_day"),
    ("earnings_expected_date", PyVal.leaf earnings_expected),
    ("earnings_time_of_day", PyVal.leaf earnings_tod),
    ("bid", marketField data "bid"),
    ("ask", marketField data "ask"),
    ("last_price", marketField data "last"),
    ("close_price", marketField data "prev_close"),
    ("volume", marketField data "volume")]

/-- The `metrics_dict` construction of `_process_symbol_batch`.  The
only failing step is `earnings.get(...)` when `earnings` is a truthy
non-dictionary; every other access is a guarded `.get`.  A raise here is
caught by the surrounding `except` arms (`KeyError`/`TypeError`/
`Exception`), which fall back to `{'symbol': symbol}`. -/
def mapSymbolRow (symbol : Symbol) (data : CombinedRow) :
    Except PyErr PyDict :=
  match (if (metricsField data "earnings").truthy then
      pyAttrGet (metricsField data "earnings") "expected_report_date"
    else Except.ok PyLeaf.none_),
    (if (metricsField data "earnings").truthy then
      pyAttrGet (metricsField data "earnings") "time_of_day"
    else Except.ok PyLeaf.none_) with
  | Except.error e, _ => Except.error e
  | _, Except.error e => Except.error e
  | Except.ok earnings_expected, Except.ok earnings_tod =>
      Except.ok (mapRowList symbol data earnings_expected earnings_tod)

/-- The minimal fallback record `{'symbol': symbol}`. -/
def fallbackDict (symbol : Symbol) : PyDict :=
  [("symbol", PyVal.leaf (PyLeaf.str symbol))]

/-- The insert row `store_metric_data` produces for the fallback
record: the symbol, sixteen SQL nulls, and two passed-through `None`
earnings fields. -/
def fallbackRow (s : Symbol) : List SqlVal :=
  [SqlVal.raw (PyVal.leaf (PyLeaf.str s)),
    SqlVal.null, SqlVal.null, SqlVal.null, SqlVal.null, SqlVal.null,
    SqlVal.null, SqlVal.null, SqlVal.null, SqlVal.null, SqlVal.null,
    SqlVal.null, SqlVal.null, SqlVal.null, SqlVal.null, SqlVal.null,
    SqlVal.null,
    SqlVal.raw (PyVal.leaf PyLeaf.none_),
    SqlVal.raw (PyVal.leaf PyLeaf.none_)]

/-- The metrics-dump keys `_process_symbol_batch` reads into numeric
columns. -/
def metricsSourceKeys : List String :=
  ["implied_volatility_index_rank", "implied_volatility_index",
    "implied_volatility_percentile", "liquidity_rating",
    "liquidity_value", "implied_volatility_30_day",
    "historical_volatility_30_day", "iv_hv_30_day_difference", "beta",
    "historical_volatility_60_day", "historical_volatility_90_day"]

/-- The market-dump keys `_process_symbol_batch` reads into numeric
columns. -/
def marketSourceKeys : List String :=
  ["bid", "ask", "last", "prev_close", "volume"]

/-- A metrics dump whose numeric source fields are numbers or `None`
(the shape the API returns; the `earnings` sub-object is
unconstrained). -/
def SafeMetricsPayload (d : PyDict) : Prop :=
  ∀ k ∈ metricsSourceKeys, NumOrNoneVal (pyGet d k)

/-- A market dump whose numeric source fields are numbers or `None`. -/
def SafeMarketPayload (d : PyDict) : Prop :=
  ∀ k ∈ marketSourceKeys, NumOrNoneVal (pyGet d k)

/-- A combined row whose two payloads, when present, are safe. -/
def RowSafe (r : CombinedRow) : Prop :=
  (∀ d, r.metrics = some d → SafeMetricsPayload d) ∧
  (∀ d, r.market_data = some d → SafeMarketPayload d)

/-- What `_process_symbol_batch` stores for one combined entry: the
insert row of the built `metrics_dict`, or — when the `metrics_dict`
construction raised and the `except` arm substituted the minimal
fallback — the fallback row for that symbol. -/
def StoredMatch (dbOk : Bool) (p : Symbol × CombinedRow)
    (row : List SqlVal) : Prop :=
  match mapSymbolRow p.1 p.2 with
  | Except.ok d => storeMetricData dbOk d = Except.ok row
  | Except.error _ => row = fallbackRow p.1

/-- The store loop of `_process_symbol_batch`: per combined entry, build
`metrics_dict` (all three `except` arms fall back to the minimal
record), then call `store_metric_data`.  That call sits outside the
`try`, so an exception it raises propagates and aborts the loop.
Returns the attempted insert rows in order. -/
def storeCombined (dbOk : Bool) : List (Symbol × CombinedRow) →
    Except PyErr (List (List SqlVal))
  | [] => Except.ok []
  | p :: rest =>
      match storeMetricData dbOk
          (match mapSymbolRow p.1 p.2 with
            | Except.ok d => d
            | Except.error _ => fallbackDict p.1) with
      | Except.error e => Except.error e
      | Except.ok row =>
          match storeCombined dbOk rest with
          | Except.error e => Except.error e
          | Except.ok rows => Except.ok (row :: rows)

/-- `EquityMetrics._process_symbol_batch`: fetch metrics and market data
in chunks of 10, combine them, store each combined row.  Returns the
batch's combined dictionary and the attempted insert rows. -/
def processSymbolBatch (env : ApiEnv) (dbOk : Bool)
    (symbols_batch : List Symbol) (delay_between_calls : ℚ) :
    Except PyErr (CombinedDict × List (List SqlVal)) := do
  let metrics_data :=
    (fetchMetricsInBatches env symbols_batch delay_between_calls).1
  let market_data :=
    (fetchMarketDataInBatches env symbols_batch delay_between_calls).1
  let batch_combined_data := combineData metrics_data market_data
  let rows ← storeCombined dbOk batch_combined_data
  pure (batch_combined_data, rows)

/-- Python `dict.update(batch)`: assign each entry of `batch` into the
accumulator in order. -/
def dictUpdate (d : CombinedDict) (batch : CombinedDict) : CombinedDict :=
  batch.foldl (fun acc p => dictSet acc p.1 p.2) d

/-- `EquityMetrics.gather_metrics`: validate the session (a failed
refresh propagates), compute `math.ceil(total / symbols_per_batch)`
outer batches (`ZeroDivisionError` for a zero batch size), process
batches sequentially accumulating `all_combined_data` by `dict.update`
together with the attempted insert rows, and finally — when `verbose` —
print a summary whose average-time line divides by
`len(all_combined_data)`, a `ZeroDivisionError` when that is zero.
`delay_between_batches` only feeds `time.sleep` and has no data
effect. -/
def gatherMetrics (env : ApiEnv) (dbOk : Bool)
    (symbols_list : List Symbol) (symbols_per_batch : Nat)
    (delay_between_calls : ℚ) (delay_between_batches : ℚ)
    (verbose : Bool) : Except PyErr (CombinedDict × List (List SqlVal)) := do
  if !env.sessionOk then throw PyErr.other
  let total_symbols := symbols_list.length
  if symbols_per_batch = 0 then throw PyErr.zeroDivisionError
  let total_batches :=
    (total_symbols + symbols_per_batch - 1) / symbols_per_batch
  let result ← (List.range total_batches).foldlM
    (fun (st : CombinedDict × List (List SqlVal)) batch_num => do
      let symbols_batch :=
        (symbols_list.drop (batch_num * symbols_per_batch)).take
          symbols_per_batch
      let pr ← processSymbolBatch env dbOk symbols_batch
        delay_between_calls
      pure (dictUpdate st.1 pr.1, st.2 ++ pr.2))
    (([], []) : CombinedDict × List (List SqlVal))
  if verbose ∧ result.1.length = 0 then throw PyErr.zeroDivisionError
  pure result

/-! ## Historical download (`download_historical_data`) -/

structure Candle where
  event_symbol : String
  time : ℤ
  close : ℚ
  payload : PyDict
deriving DecidableEq, Repr

def openBraceChar : Char := Char.ofNat 123

/-- `candle.event_symbol.split('\x7b')[0]`: the part before the first
opening brace (the whole string when there is none). -/
def extractSymbol (s : String) : String :=
  ⟨s.data.takeWhile (fun c => c ≠ openBraceChar)⟩

inductive StopReason where
  | timeout : StopReason
  | allComplete : StopReason
deriving DecidableEq, Repr

/-- The `data` dictionary: per requested symbol, the collected candle
dumps. -/
abbrev HistData := List (String × List PyDict)

/-- `data[symbol].append(candle.model_dump())`: bracket indexing —
`KeyError` for a symbol that was not requested. -/
def histAppend (d : HistData) (k : String) (v : PyDict) :
    Except PyErr HistData :=
  if d.any (fun p => p.1 == k) then
    Except.ok (d.map (fun p => if p.1 == k then (p.1, p.2 ++ [v]) else p))
  else Except.error PyErr.keyError

/-- `completed_symbols.add(symbol)` on a set modelled as a
duplicate-free insertion-ordered list. -/
def setInsert (l : List String) (s : String) : List String :=
  if s ∈ l then l else l ++ [s]

/-- The consumption loop of `download_historical_data`.  The stream is
the finite list of candles delivered before a 3-second silence; running
out of candles models the `asyncio.TimeoutError` of
`asyncio.wait_for(..., timeout=3.0)` that breaks the loop. -/
def downloadLoop (symbols : List String) (start_ms : ℤ) :
    List Candle → HistData → List String →
    Except PyErr (HistData × List String × StopReason)
  | [], data, completed => Except.ok (data, completed, StopReason.timeout)
  | candle :: rest, data, completed =>
      if candle.time < start_ms then
        if (setInsert completed (extractSymbol candle.event_symbol)).length
            = symbols.length then
          Except.ok (data,
            setInsert completed (extractSymbol candle.event_symbol),
            StopReason.allComplete)
        else
          downloadLoop symbols start_ms rest data
            (setInsert completed (extractSymbol candle.event_symbol))
      else if candle.close = 0 then
        if (setInsert completed (extractSymbol candle.event_symbol)).length
            = symbols.length then
          Except.ok (data,
            setInsert completed (extractSymbol candle.event_symbol),
            StopReason.allComplete)
        else
          downloadLoop symbols start_ms rest data
            (setInsert completed (extractSymbol candle.event_symbol))
      else
        match histAppend data (extractSymbol candle.event_symbol)
            candle.payload with
        | Except.ok data2 => downloadLoop symbols start_ms rest data2 completed
        | Except.error e => Except.error e

/-- `download_historical_data` up to the end of its consumption loop:
initialize `data = {symbol: [] for symbol in symbols}` and an empty
completion set, then consume. -/
def downloadHistoricalData (symbols : List String) (start_ms : ℤ)
    (stream : List Candle) :
    Except PyErr (HistData × List String × StopReason) :=
  downloadLoop symbols start_ms stream (symbols.map (fun s => (s, []))) []

/-- Whether the loop keeps (appends) a candle rather than treating it as
a completion signal. -/
def keptCandle (start_ms : ℤ) (c : Candle) : Bool :=
  if c.time < start_ms then false else if c.close = 0 then false else true

def histLookup : HistData → String → Option (List PyDict)
  | [], _ => none
  | p :: rest, s => if p.1 == s then some p.2 else histLookup rest s

/-! ## Streaming subscription lifecycle (`MarketDataSubscription`) -/

/-- Whether the background listen task exists and has finished. -/
inductive TaskState where
  | running : TaskState
  | done : TaskState
deriving DecidableEq, Repr

/-- The mutable attributes of a `MarketDataSubscription` object.  The
session and streamer handles are opaque. -/
structure SubState where
  symbols : List Symbol
  session : Option Unit
  streamer : Option Unit
  is_running : Bool
  listen_task : Option TaskState
deriving DecidableEq, Repr

/-- Outcome of `await self.listen_task` after `cancel()`.  The in-repo
`_listen_for_data` catches `CancelledError` itself and returns, so the
await normally returns; a re-raised `CancelledError` and any other
exception are also modelled. -/
inductive AwaitOutcome where
  | ok : AwaitOutcome
  | cancelled : AwaitOutcome
  | exc : AwaitOutcome
deriving DecidableEq, Repr

/-- Environment fixing the outcome of every external call made by
`connect` / `stop` / `cleanup`. -/
structure StreamEnv where
  clientSecret : String
  refreshToken : String
  sessionCtorOk : Bool
  aenterOk : Bool
  subscribeOk : Bool
  unsubOk : Bool
  aexitOk : Bool
  awaitOutcome : AwaitOutcome
deriving DecidableEq, Repr

/-- `MarketDataSubscription.cleanup`: close the streamer (its own
`try/except` swallows the `__aexit__` error, its `finally` clears the
handle), then clear the session.  Never raises. -/
def cleanupRun (st : SubState) (env : StreamEnv) : SubState :=
  let st1 :=
    match st.streamer with
    | some _ =>
        match env.aexitOk with
        | true => { st with streamer := none }
        | false => { st with streamer := none }
    | none => st
  { st1 with session := none }

/-- `MarketDataSubscription.stop`: the whole body runs inside
`try/except Exception`.  Set `is_running = False`; cancel and await the
listen task (`CancelledError` caught by the inner `except`, any other
exception jumping to the outer `except`, which prints and returns);
unsubscribe (its own guarded `try`); `cleanup`.  Returns the final
object state together with the exception `stop` itself raised. -/
def stopRun (st : SubState) (env : StreamEnv) : SubState × Option PyErr :=
  let st1 := { st with is_running := false }
  let afterCancel : SubState × Option PyErr :=
    match st1.listen_task with
    | some TaskState.running =>
        match env.awaitOutcome with
        | AwaitOutcome.ok =>
            ({ st1 with listen_task := some TaskState.done }, none)
        | AwaitOutcome.cancelled =>
            ({ st1 with listen_task := some TaskState.done }, none)
        | AwaitOutcome.exc =>
            ({ st1 with listen_task := some TaskState.done },
              some PyErr.other)
    | _ => (st1, none)
  match afterCancel with
  | (st2, some _) => (st2, none)
  | (st2, none) =>
      let st3 := cleanupRun st2 env
      (st3, none)

/-- Python truthiness of a string: empty is falsy. -/
def pyTruthyStr (s : String) : Bool := s ≠ ""

/-- The keys `store_metric_data` float- or int-coerces. -/
def metricNumericKeys : List String :=
  ["bid", "ask", "last_price", "close_price", "volume", "iv_index",
    "iv_rank", "iv_percentile", "liquidity_rating", "liquidity_value",
    "iv_30_day", "hv_30_day", "iv_hv_difference", "hv_60_day",
    "hv_90_day", "beta"]

/-- The keys `store_candle_data` reads with bracket indexing. -/
def candleBracketKeys : List String :=
  ["volume", "bid_volume", "ask_volume", "imp_volatility"]

/-! ## Concrete environments used as witnesses and counterexamples -/

/-- An API environment in which every fetch call raises. -/
def envAllFail : ApiEnv :=
  ⟨fun _ => Except.error PyErr.apiError,
    fun _ => Except.error PyErr.apiError, true⟩

/-- Eleven symbols: two chunks of size 10 under `_chunk_symbols`. -/
def symbolsC8 : List Symbol :=
  ["S01", "S02", "S03", "S04", "S05", "S06", "S07", "S08", "S09", "S10",
    "S11"]

/-- An API environment whose metrics fetch raises exactly on the
full-size first chunk and succeeds elsewhere. -/
def envC8 : ApiEnv :=
  ⟨fun ch =>
      if ch.length = 10 then Except.error PyErr.apiError
      else Except.ok [],
    fun _ => Except.ok [], true⟩

/-- Two symbols, processed one per batch in the partial-failure
witness. -/
def symbolsC1 : List Symbol := ["AAA", "BBB"]

/-- An API environment whose metrics fetch raises exactly on the chunk
`["AAA"]` and returns no records on any other chunk, while the market
fetch returns one empty-dump record per requested symbol. -/
def envC1 : ApiEnv :=
  ⟨fun ch =>
      if ch = ["AAA"] then Except.error PyErr.apiError
      else Except.ok [],
    fun ch => Except.ok (ch.map (fun s => ⟨s, []⟩)), true⟩

/-- `MarketDataSubscription.connect`: stop a stale streamer first; read
and check credentials (`ValueError` when either is empty); construct the
session; check the symbol list (`ValueError` when empty); set the
streamer handle, enter it, subscribe; mark running and spawn the listen
task.  Any raise jumps to the `except` arm, which runs `cleanup` and
re-raises.  Returns the final state and the propagated exception. -/
def connectBody (st0 : SubState) (env : StreamEnv) :
    SubState × Option PyErr :=
  if !pyTruthyStr env.clientSecret || !pyTruthyStr env.refreshToken then
    (st0, some PyErr.valueError)
  else if !env.sessionCtorOk then (st0, some PyErr.other)
  else
    let st1 := { st0 with session := some () }
    if st1.symbols.isEmpty then (st1, some PyErr.valueError)
    else
      let st2 := { st1 with streamer := some () }
      if !env.aenterOk then (st2, some PyErr.other)
      else if !env.subscribeOk then (st2, some PyErr.other)
      else
        ({ st2 with
            is_running := true
            listen_task := some TaskState.running }, none)

/-- The `if self.streamer: await self.stop()` prelude of `connect`. -/
def connectPre (st : SubState) (env : StreamEnv) : SubState :=
  match st.streamer with
  | some _ => (stopRun st env).1
  | none => st

def connectRun (st : SubState) (env : StreamEnv) :
    SubState × Option PyErr :=
  match connectBody (connectPre st env) env with
  | (stb, some e) => (cleanupRun stb env, some e)
  | (stb, none) => (stb, none)

end MarketDataCollector

namespace MarketDataCollector

/-! ## Theorems -/

/-- Arithmetic step used for the chunk-count proof. -/
theorem ceil_div_sub_step (n c : Nat) (hn : 0 < n) (hc : 0 < c) :
    ((n - c) + c - 1) / c + 1 = (n + c - 1) / c := by
  rcases Nat.le_total c n with h | h
  · have h1 : (n - c) + c - 1 = n - 1 := by omega
    have h2 : n + c - 1 = (n - 1) + c := by omega
    rw [h1, h2, Nat.add_div_right _ hc]
  · have h1 : (n - c) + c - 1 = c - 1 := by omega
    have h2 : n + c - 1 = (n - 1) + c := by omega
    have h3 : (c - 1) / c = 0 := Nat.div_eq_of_lt (by omega)
    have h4 : (n - 1) / c = 0 := Nat.div_eq_of_lt (by omega)
    rw [h1, h2, Nat.add_div_right _ hc, h3, h4]

theorem chunkSymbols_length {α : Type} (l : List α) (c : Nat) :
    (chunkSymbols l c).length =
      if c = 0 then 0 else (l.length + c - 1) / c := by
  unfold chunkSymbols
  split <;> simp

theorem chunkSymbols_chunk_le {α : Type} (l : List α) (c : Nat) :
    ∀ ch ∈ chunkSymbols l c, ch.length ≤ c := by
  unfold chunkSymbols
  split
  · simp
  · intro ch hch
    obtain ⟨i, _, rfl⟩ := List.mem_map.mp hch
    simp [List.length_take]

theorem chunkSymbols_flatten_aux {α : Type} (c : Nat) (hc : 0 < c) :
    ∀ n (l : List α), l.length = n →
      ((List.range ((l.length + c - 1) / c)).map
        (fun i => (l.drop (i * c)).take c)).flatten = l := by
  intro n
  induction n using Nat.strong_induction_on with
  | _ n ih =>
      intro l hlen
      cases l with
      | nil => simp [Nat.div_eq_of_lt (by omega : c - 1 < c)]
      | cons x xs =>
          have hpos : 0 < ((x :: xs).length + c - 1) / c :=
            Nat.div_pos (by simp only [List.length_cons]; omega) hc
          obtain ⟨k, hk⟩ : ∃ k, ((x :: xs).length + c - 1) / c = k + 1 :=
            ⟨((x :: xs).length + c - 1) / c - 1, by omega⟩
          rw [hk, List.range_succ_eq_map, List.map_cons, List.map_map,
            List.flatten_cons]
          have hhead : (((x :: xs).drop (0 * c)).take c) =
              (x :: xs).take c := by simp
          rw [hhead]
          have htail : (List.range k).map
              ((fun i => ((x :: xs).drop (i * c)).take c) ∘ Nat.succ) =
              (List.range k).map
                (fun i => (((x :: xs).drop c).drop (i * c)).take c) := by
            apply List.map_congr_left
            intro i _
            simp only [Function.comp]
            rw [List.drop_drop]
            congr 2
            simp only [Nat.succ_eq_add_one]
            ring
          rw [htail]
          have hklen : k = (((x :: xs).drop c).length + c - 1) / c := by
            have hstep := ceil_div_sub_step (x :: xs).length c (by simp) hc
            rw [hk] at hstep
            simp only [List.length_drop]
            omega
          rw [hklen,
            ih ((x :: xs).drop c).length
              (by
                simp only [List.length_drop, List.length_cons] at hlen ⊢
                omega)
              ((x :: xs).drop c) rfl]
          exact List.take_append_drop c (x :: xs)

theorem chunkSymbols_flatten {α : Type} (l : List α) (c : Nat) :
    (chunkSymbols l c ).flatten = if c = 0 then [] else l := by
  unfold chunkSymbols
  by_cases hc : c = 0
  · simp [hc]
  · rw [if_neg hc, if_neg hc]
    exact chunkSymbols_flatten_aux c (Nat.pos_of_ne_zero hc) l.length l rfl

/-- C2: for every symbol list of length `N` and chunk size `C > 0`,
`_chunk_symbols` yields exactly `⌈N / C⌉ = (N + C - 1) / C` chunks, each
of length at most `C`, and concatenating the chunks in yield order
reproduces the input list exactly. -/
theorem chunk_symbols_partition (l : List Symbol) (c : Nat) (hc : 0 < c) :
    (chunkSymbols l c).length = (l.length + c - 1) / c ∧
    (∀ ch ∈ chunkSymbols l c, ch.length ≤ c) ∧
    (chunkSymbols l c ).flatten = l :=
  ⟨by rw [chunkSymbols_length, if_neg (Nat.pos_iff_ne_zero.mp hc)],
    chunkSymbols_chunk_le l c, by
    rw [chunkSymbols_flatten, if_neg (Nat.pos_iff_ne_zero.mp hc)]⟩

/-- Witness for C2 at a concrete input: 5 symbols, chunk size 2. -/
theorem chunk_symbols_partition_witness :
    0 < 2 ∧
    ((chunkSymbols ["A", "B", "C", "D", "E"] 2).length = (5 + 2 - 1) / 2 ∧
      (∀ ch ∈ chunkSymbols ["A", "B", "C", "D", "E"] 2, ch.length ≤ 2) ∧
      (chunkSymbols ["A", "B", "C", "D", "E"] 2 ).flatten =
        ["A", "B", "C", "D", "E"]) :=
  ⟨by decide, chunk_symbols_partition ["A", "B", "C", "D", "E"] 2 (by decide)⟩

/-! ### Lemmas about the combined dictionary -/

theorem findVal_eq_none_iff (d : CombinedDict) (s : Symbol) :
    findVal d s = none ↔ s ∉ dictKeys d := by
  induction d with
  | nil => simp [findVal, dictKeys]
  | cons p rest ih =>
      by_cases h : p.1 = s
      · subst h; simp [findVal, dictKeys]
      · simp [findVal, dictKeys, beq_iff_eq, h, Ne.symm h, ih]

theorem dictHasKey_iff (d : CombinedDict) (k : Symbol) :
    dictHasKey d k = true ↔ k ∈ dictKeys d := by
  induction d with
  | nil => simp [dictHasKey, dictKeys]
  | cons p rest ih =>
      simp only [dictHasKey, List.any_cons, Bool.or_eq_true, beq_iff_eq,
        dictKeys, List.map_cons, List.mem_cons] at ih ⊢
      constructor
      · rintro (h | h)
        · exact Or.inl h.symm
        · exact Or.inr (ih.mp h)
      · rintro (h | h)
        · exact Or.inl h.symm
        · exact Or.inr (ih.mpr h)

theorem findVal_updValue (d : CombinedDict) (k : Symbol)
    (f : CombinedRow → CombinedRow) (s : Symbol) :
    findVal (updValue d k f) s =
      if k = s then (findVal d s).map f else findVal d s := by
  induction d with
  | nil => by_cases hks : k = s <;> simp [updValue, findVal, hks]
  | cons p rest ih =>
      simp only [updValue, List.map_cons, beq_iff_eq] at ih ⊢
      by_cases hpk : p.1 = k
      · subst hpk
        by_cases hps : p.1 = s
        · subst hps; simp [findVal]
        · simp [findVal, beq_iff_eq, hps, ih]
      · by_cases hps : p.1 = s
        · subst hps
          have hkp : ¬ k = p.1 := fun h => hpk h.symm
          simp [findVal, beq_iff_eq, hpk, hkp]
        · simp [findVal, beq_iff_eq, hpk, hps, ih]

theorem findVal_append_single (d : CombinedDict) (k : Symbol)
    (v : CombinedRow) (s : Symbol) :
    findVal (d ++ [(k, v)]) s =
      match findVal d s with
      | some r => some r
      | none => if k = s then some v else none := by
  induction d with
  | nil => simp [findVal, beq_iff_eq]
  | cons p rest ih =>
      by_cases hps : p.1 = s
      · simp [findVal, beq_iff_eq, hps]
      · simp only [List.cons_append, findVal]
        simp [beq_iff_eq, hps, ih]

theorem findVal_mem (d : CombinedDict) (s : Symbol)
    (h : s ∈ dictKeys d) : ∃ r, findVal d s = some r := by
  cases hfv : findVal d s with
  | none => exact absurd ((findVal_eq_none_iff d s).mp hfv) (fun hn => hn h)
  | some r => exact ⟨r, rfl⟩

theorem findVal_combineMetricsStep (acc : CombinedDict) (m : MetricsRec)
    (s : Symbol) :
    findVal (combineMetricsStep acc m) s =
      if m.symbol = s then some ⟨m.symbol, some m.payload, none⟩
      else findVal acc s := by
  unfold combineMetricsStep dictSet
  by_cases hk : dictHasKey acc m.symbol
  · rw [if_pos hk, findVal_updValue]
    by_cases hms : m.symbol = s
    · rw [if_pos hms, if_pos hms]
      have hmem : s ∈ dictKeys acc :=
        hms ▸ (dictHasKey_iff acc m.symbol).mp hk
      obtain ⟨r, hr⟩ := findVal_mem acc s hmem
      rw [hr]
      rfl
    · rw [if_neg hms, if_neg hms]
  · rw [if_neg hk, findVal_append_single]
    by_cases hms : m.symbol = s
    · subst hms
      have hfv : findVal acc m.symbol = none := by
        rw [findVal_eq_none_iff]
        intro hmem
        exact hk ((dictHasKey_iff acc m.symbol).mpr hmem)
      rw [hfv]
    · cases hfv : findVal acc s with
      | none => simp [hms]
      | some r => simp [hms]

theorem findVal_combineMarketStep (acc : CombinedDict) (q : MarketRec)
    (s : Symbol) :
    findVal (combineMarketStep acc q) s =
      if q.symbol = s then
        match findVal acc s with
        | some r => some { r with market_data := some q.payload }
        | none => some ⟨q.symbol, none, some q.payload⟩
      else findVal acc s := by
  unfold combineMarketStep
  by_cases hk : dictHasKey acc q.symbol
  · rw [if_pos hk, findVal_updValue]
    by_cases hqs : q.symbol = s
    · rw [if_pos hqs, if_pos hqs]
      have hmem : s ∈ dictKeys acc :=
        hqs ▸ (dictHasKey_iff acc q.symbol).mp hk
      obtain ⟨r, hr⟩ := findVal_mem acc s hmem
      rw [hr]
      rfl
    · rw [if_neg hqs, if_neg hqs]
  · rw [if_neg hk, findVal_append_single]
    by_cases hqs : q.symbol = s
    · subst hqs
      have hfv : findVal acc q.symbol = none := by
        rw [findVal_eq_none_iff]
        intro hmem
        exact hk ((dictHasKey_iff acc q.symbol).mpr hmem)
      rw [hfv]
    · cases hfv : findVal acc s with
      | none => simp [hqs]
      | some r => simp [hqs]


theorem findVal_foldl_metrics (ms : List MetricsRec) (acc : CombinedDict)
    (s : Symbol) :
    findVal (ms.foldl combineMetricsStep acc) s =
      match ms.reverse.find? (fun m => m.symbol == s) with
      | some m => some ⟨m.symbol, some m.payload, none⟩
      | none => findVal acc s := by
  induction ms generalizing acc with
  | nil => simp
  | cons m rest ih =>
      simp only [List.foldl_cons, List.reverse_cons]
      rw [ih, List.find?_append]
      cases hfind : rest.reverse.find? (fun m => m.symbol == s) with
      | some m2 => rfl
      | none =>
          rw [Option.none_or, findVal_combineMetricsStep]
          by_cases hms : m.symbol = s
          · have hbeq : (m.symbol == s) = true := by simp [hms]
            simp [List.find?, hbeq, hms]
          · have hbeq : (m.symbol == s) = false := by simp [hms]
            simp [List.find?, hbeq, hms]

theorem findVal_foldl_market (qs : List MarketRec) (acc : CombinedDict)
    (s : Symbol) :
    findVal (qs.foldl combineMarketStep acc) s =
      match qs.reverse.find? (fun q => q.symbol == s) with
      | some q =>
          match findVal acc s with
          | some r => some { r with market_data := some q.payload }
          | none => some ⟨q.symbol, none, some q.payload⟩
      | none => findVal acc s := by
  induction qs generalizing acc with
  | nil => simp
  | cons q rest ih =>
      simp only [List.foldl_cons, List.reverse_cons]
      rw [ih, List.find?_append]
      cases hfind : rest.reverse.find? (fun q => q.symbol == s) with
      | some q2 =>
          have hq2 : q2.symbol = s := by simpa using List.find?_some hfind
          rw [findVal_combineMarketStep]
          by_cases hqs : q.symbol = s
          · rw [if_pos hqs]
            cases hfv : findVal acc s with
            | none => simp [hqs, hq2]
            | some r => rfl
          · rw [if_neg hqs]
            rfl
      | none =>
          rw [Option.none_or, findVal_combineMarketStep]
          by_cases hqs : q.symbol = s
          · have hbeq : (q.symbol == s) = true := by simp [hqs]
            simp [List.find?, hbeq, hqs]
          · have hbeq : (q.symbol == s) = false := by simp [hqs]
            simp [List.find?, hbeq, hqs]


/-- Full characterization of a `_combine_data` lookup: the metrics field
comes from the (last) metrics record of that symbol, the market field
from the (last) market record of that symbol. -/
theorem findVal_combineData (ms : List MetricsRec) (qs : List MarketRec)
    (s : Symbol) :
    findVal (combineData ms qs) s =
      match qs.reverse.find? (fun q => q.symbol == s),
          ms.reverse.find? (fun m => m.symbol == s) with
      | some q, some m => some ⟨m.symbol, some m.payload, some q.payload⟩
      | some q, none => some ⟨q.symbol, none, some q.payload⟩
      | none, some m => some ⟨m.symbol, some m.payload, none⟩
      | none, none => none := by
  unfold combineData
  rw [findVal_foldl_market, findVal_foldl_metrics]
  cases qs.reverse.find? (fun q => q.symbol == s) with
  | some q =>
      cases ms.reverse.find? (fun m => m.symbol == s) with
      | some m => rfl
      | none => simp [findVal]
  | none =>
      cases ms.reverse.find? (fun m => m.symbol == s) with
      | some m => rfl
      | none => simp [findVal]

theorem dictKeys_updValue (d : CombinedDict) (k : Symbol)
    (f : CombinedRow → CombinedRow) :
    dictKeys (updValue d k f) = dictKeys d := by
  unfold updValue dictKeys
  rw [List.map_map]
  apply List.map_congr_left
  intro p _
  by_cases h : p.1 = k <;> simp [Function.comp, h]

theorem dictKeys_append_single (d : CombinedDict) (k : Symbol)
    (v : CombinedRow) :
    dictKeys (d ++ [(k, v)]) = dictKeys d ++ [k] := by
  simp [dictKeys]

theorem nodup_dictKeys_combineMetricsStep (acc : CombinedDict)
    (m : MetricsRec) (h : (dictKeys acc).Nodup) :
    (dictKeys (combineMetricsStep acc m)).Nodup := by
  unfold combineMetricsStep dictSet
  by_cases hk : dictHasKey acc m.symbol
  · rw [if_pos hk, dictKeys_updValue]
    exact h
  · rw [if_neg hk, dictKeys_append_single]
    have hnot : m.symbol ∉ dictKeys acc :=
      fun hmem => hk ((dictHasKey_iff acc m.symbol).mpr hmem)
    simp [List.nodup_append, h, hnot]

theorem nodup_dictKeys_combineMarketStep (acc : CombinedDict)
    (q : MarketRec) (h : (dictKeys acc).Nodup) :
    (dictKeys (combineMarketStep acc q)).Nodup := by
  unfold combineMarketStep
  by_cases hk : dictHasKey acc q.symbol
  · rw [if_pos hk, dictKeys_updValue]
    exact h
  · rw [if_neg hk, dictKeys_append_single]
    have hnot : q.symbol ∉ dictKeys acc :=
      fun hmem => hk ((dictHasKey_iff acc q.symbol).mpr hmem)
    simp [List.nodup_append, h, hnot]

theorem nodup_dictKeys_foldl_metrics (ms : List MetricsRec)
    (acc : CombinedDict) (h : (dictKeys acc).Nodup) :
    (dictKeys (ms.foldl combineMetricsStep acc)).Nodup := by
  induction ms generalizing acc with
  | nil => exact h
  | cons m rest ih =>
      exact ih _ (nodup_dictKeys_combineMetricsStep acc m h)

theorem nodup_dictKeys_foldl_market (qs : List MarketRec)
    (acc : CombinedDict) (h : (dictKeys acc).Nodup) :
    (dictKeys (qs.foldl combineMarketStep acc)).Nodup := by
  induction qs generalizing acc with
  | nil => exact h
  | cons q rest ih =>
      exact ih _ (nodup_dictKeys_combineMarketStep acc q h)

/-- The keys of a `_combine_data` result never repeat, whatever the
inputs: a symbol occurs at most once as a key. -/
theorem nodup_dictKeys_combineData (ms : List MetricsRec)
    (qs : List MarketRec) : (dictKeys (combineData ms qs)).Nodup :=
  nodup_dictKeys_foldl_market qs _
    (nodup_dictKeys_foldl_metrics ms [] (by simp [dictKeys]))

theorem reverse_find?_of_mem_symbols {ms : List MetricsRec} {s : Symbol}
    (h : s ∈ ms.map MetricsRec.symbol) :
    ∃ m, ms.reverse.find? (fun m => m.symbol == s) = some m ∧
      m ∈ ms ∧ m.symbol = s := by
  cases hfind : ms.reverse.find? (fun m => m.symbol == s) with
  | none =>
      rw [List.find?_eq_none] at hfind
      obtain ⟨m, hm, hms⟩ := List.mem_map.mp h
      exact absurd (by simp [hms]) (hfind m (List.mem_reverse.mpr hm))
  | some m =>
      refine ⟨m, rfl, ?_, ?_⟩
      · exact List.mem_reverse.mp (List.mem_of_find?_eq_some hfind)
      · simpa using List.find?_some hfind

theorem reverse_find?_of_mem_symbols_q {qs : List MarketRec} {s : Symbol}
    (h : s ∈ qs.map MarketRec.symbol) :
    ∃ q, qs.reverse.find? (fun q => q.symbol == s) = some q ∧
      q ∈ qs ∧ q.symbol = s := by
  cases hfind : qs.reverse.find? (fun q => q.symbol == s) with
  | none =>
      rw [List.find?_eq_none] at hfind
      obtain ⟨q, hq, hqs⟩ := List.mem_map.mp h
      exact absurd (by simp [hqs]) (hfind q (List.mem_reverse.mpr hq))
  | some q =>
      refine ⟨q, rfl, ?_, ?_⟩
      · exact List.mem_reverse.mp (List.mem_of_find?_eq_some hfind)
      · simpa using List.find?_some hfind

theorem reverse_find?_of_not_mem_symbols {ms : List MetricsRec}
    {s : Symbol} (h : s ∉ ms.map MetricsRec.symbol) :
    ms.reverse.find? (fun m => m.symbol == s) = none := by
  rw [List.find?_eq_none]
  intro m hm
  simp only [beq_iff_eq]
  intro hms
  exact h (List.mem_map.mpr ⟨m, List.mem_reverse.mp hm, hms⟩)

theorem reverse_find?_of_not_mem_symbols_q {qs : List MarketRec}
    {s : Symbol} (h : s ∉ qs.map MarketRec.symbol) :
    qs.reverse.find? (fun q => q.symbol == s) = none := by
  rw [List.find?_eq_none]
  intro q hq
  simp only [beq_iff_eq]
  intro hqs
  exact h (List.mem_map.mpr ⟨q, List.mem_reverse.mp hq, hqs⟩)

/-- C3: `_combine_data` is a full outer join on symbol.  For inputs with
per-list unique symbols, every symbol present in either input appears
exactly once among the keys of the result; its row carries the symbol;
a symbol present in both inputs has both `metrics` and `market_data`
populated (from its records); a symbol present in only one input has the
other field explicitly `None` (the key still exists).  Both inputs may
be empty (the function is total; the witness instantiates an empty
side). -/
theorem combine_data_full_outer_join (ms : List MetricsRec)
    (qs : List MarketRec) (hm : (ms.map MetricsRec.symbol).Nodup)
    (hq : (qs.map MarketRec.symbol).Nodup) (s : Symbol)
    (hs : s ∈ ms.map MetricsRec.symbol ∨ s ∈ qs.map MarketRec.symbol) :
    (dictKeys (combineData ms qs)).count s = 1 ∧
    ∃ row, findVal (combineData ms qs) s = some row ∧ row.symbol = s ∧
      (s ∈ ms.map MetricsRec.symbol →
        ∃ m ∈ ms, m.symbol = s ∧ row.metrics = some m.payload) ∧
      (s ∉ ms.map MetricsRec.symbol → row.metrics = none) ∧
      (s ∈ qs.map MarketRec.symbol →
        ∃ q ∈ qs, q.symbol = s ∧ row.market_data = some q.payload) ∧
      (s ∉ qs.map MarketRec.symbol → row.market_data = none) := by
  have hrow : ∃ row, findVal (combineData ms qs) s = some row ∧
      row.symbol = s ∧
      (s ∈ ms.map MetricsRec.symbol →
        ∃ m ∈ ms, m.symbol = s ∧ row.metrics = some m.payload) ∧
      (s ∉ ms.map MetricsRec.symbol → row.metrics = none) ∧
      (s ∈ qs.map MarketRec.symbol →
        ∃ q ∈ qs, q.symbol = s ∧ row.market_data = some q.payload) ∧
      (s ∉ qs.map MarketRec.symbol → row.market_data = none) := by
    by_cases hm1 : s ∈ ms.map MetricsRec.symbol <;>
      by_cases hq1 : s ∈ qs.map MarketRec.symbol
    · obtain ⟨m, hfm, hmm, hmsym⟩ := reverse_find?_of_mem_symbols hm1
      obtain ⟨q, hfq, hqm, hqsym⟩ := reverse_find?_of_mem_symbols_q hq1
      refine ⟨⟨m.symbol, some m.payload, some q.payload⟩, ?_, hmsym, ?_, ?_, ?_, ?_⟩
      · rw [findVal_combineData, hfm, hfq]
      · intro _; exact ⟨m, hmm, hmsym, rfl⟩
      · intro hcon; exact absurd hm1 hcon
      · intro _; exact ⟨q, hqm, hqsym, rfl⟩
      · intro hcon; exact absurd hq1 hcon
    · obtain ⟨m, hfm, hmm, hmsym⟩ := reverse_find?_of_mem_symbols hm1
      have hfq := reverse_find?_of_not_mem_symbols_q hq1
      refine ⟨⟨m.symbol, some m.payload, none⟩, ?_, hmsym, ?_, ?_, ?_, ?_⟩
      · rw [findVal_combineData, hfm, hfq]
      · intro _; exact ⟨m, hmm, hmsym, rfl⟩
      · intro hcon; exact absurd hm1 hcon
      · intro hcon; exact absurd hcon hq1
      · intro _; rfl
    · have hfm := reverse_find?_of_not_mem_symbols hm1
      obtain ⟨q, hfq, hqm, hqsym⟩ := reverse_find?_of_mem_symbols_q hq1
      refine ⟨⟨q.symbol, none, some q.payload⟩, ?_, hqsym, ?_, ?_, ?_, ?_⟩
      · rw [findVal_combineData, hfm, hfq]
      · intro hcon; exact absurd hcon hm1
      · intro _; rfl
      · intro _; exact ⟨q, hqm, hqsym, rfl⟩
      · intro hcon; exact absurd hq1 hcon
    · rcases hs with hcon | hcon
      · exact absurd hcon hm1
      · exact absurd hcon hq1
  refine ⟨?_, hrow⟩
  obtain ⟨row, hfv, _⟩ := hrow
  have hmem : s ∈ dictKeys (combineData ms qs) := by
    by_contra hno
    rw [← findVal_eq_none_iff] at hno
    rw [hno] at hfv
    cases hfv
  have hnd := nodup_dictKeys_combineData ms qs
  have h1 := List.nodup_iff_count_le_one.mp hnd s
  have h2 := List.count_pos_iff.mpr hmem
  omega

/-- Witness for C3: metrics for A and B, market data for B only; checks
the both-sides symbol B.  The market list also shows an input smaller
than the other (the empty-payload case). -/
theorem combine_data_full_outer_join_witness :
    ((([⟨"A", []⟩, ⟨"B", []⟩] : List MetricsRec).map
        MetricsRec.symbol).Nodup ∧
      (([⟨"B", []⟩] : List MarketRec).map MarketRec.symbol).Nodup ∧
      "B" ∈ ([⟨"A", []⟩, ⟨"B", []⟩] : List MetricsRec).map
        MetricsRec.symbol) ∧
    (dictKeys (combineData [⟨"A", []⟩, ⟨"B", []⟩] [⟨"B", []⟩])).count "B"
      = 1 :=
  ⟨⟨by decide, by decide, by decide⟩,
    (combine_data_full_outer_join [⟨"A", []⟩, ⟨"B", []⟩] [⟨"B", []⟩]
      (by decide) (by decide) "B" (Or.inl (by decide))).1⟩


/-! ### The batched fetch under failures -/

theorem fetch_foldl_metrics_error (env : ApiEnv) (n : Nat) (d : ℚ)
    (ps : List (Nat × List Symbol)) (acc : List MetricsRec × Nat)
    (h : ∀ p ∈ ps, ∃ e, env.metricsRet p.2 = Except.error e) :
    ps.foldl (fun acc p =>
      match env.metricsRet p.2 with
      | Except.ok metrics_data =>
          (acc.1 ++ metrics_data,
            acc.2 + if p.1 + 1 < n ∧ 0 < d then 1 else 0)
      | Except.error _ => acc) acc = acc := by
  induction ps generalizing acc with
  | nil => rfl
  | cons p rest ih =>
      obtain ⟨e, he⟩ := h p (List.mem_cons_self p rest)
      simp only [List.foldl_cons, he]
      exact ih _ (fun p hp => h p (List.mem_cons_of_mem _ hp))

theorem fetch_foldl_market_error (env : ApiEnv) (n : Nat) (d : ℚ)
    (ps : List (Nat × List Symbol)) (acc : List MarketRec × Nat)
    (h : ∀ p ∈ ps, ∃ e, env.marketRet p.2 = Except.error e) :
    ps.foldl (fun acc p =>
      match env.marketRet p.2 with
      | Except.ok market_data =>
          (acc.1 ++ market_data,
            acc.2 + if p.1 + 1 < n ∧ 0 < d then 1 else 0)
      | Except.error _ => acc) acc = acc := by
  induction ps generalizing acc with
  | nil => rfl
  | cons p rest ih =>
      obtain ⟨e, he⟩ := h p (List.mem_cons_self p rest)
      simp only [List.foldl_cons, he]
      exact ih _ (fun p hp => h p (List.mem_cons_of_mem _ hp))

theorem snd_mem_of_mem_enum {α : Type} {l : List α} {p : Nat × α}
    (h : p ∈ l.enum) : p.2 ∈ l := by
  have hmap := List.enum_map_snd l
  exact hmap ▸ List.mem_map_of_mem Prod.snd h

theorem fetchMetricsInBatches_all_fail (env : ApiEnv)
    (symbols_list : List Symbol) (d : ℚ)
    (h : ∀ ch ∈ chunkSymbols symbols_list 10,
      ∃ e, env.metricsRet ch = Except.error e) :
    fetchMetricsInBatches env symbols_list d = ([], 0) := by
  unfold fetchMetricsInBatches
  exact fetch_foldl_metrics_error env _ d _ ([], 0)
    (fun p hp => h p.2 (snd_mem_of_mem_enum hp))

theorem fetchMarketDataInBatches_all_fail (env : ApiEnv)
    (symbols_list : List Symbol) (d : ℚ)
    (h : ∀ ch ∈ chunkSymbols symbols_list 10,
      ∃ e, env.marketRet ch = Except.error e) :
    fetchMarketDataInBatches env symbols_list d = ([], 0) := by
  unfold fetchMarketDataInBatches
  exact fetch_foldl_market_error env _ d _ ([], 0)
    (fun p hp => h p.2 (snd_mem_of_mem_enum hp))

theorem processSymbolBatch_all_fail (env : ApiEnv) (dbOk : Bool)
    (symbols_batch : List Symbol) (d : ℚ)
    (h : ∀ ch, (∃ e, env.metricsRet ch = Except.error e) ∧
      (∃ e, env.marketRet ch = Except.error e)) :
    processSymbolBatch env dbOk symbols_batch d = Except.ok ([], []) := by
  unfold processSymbolBatch
  rw [fetchMetricsInBatches_all_fail env symbols_batch d
    (fun ch _ => (h ch).1),
    fetchMarketDataInBatches_all_fail env symbols_batch d
    (fun ch _ => (h ch).2)]
  rfl

theorem foldlM_pure_of_id {σ : Type} (f : σ → Nat → Except PyErr σ)
    (l : List Nat) (st : σ) (h : ∀ st i, i ∈ l → f st i = Except.ok st) :
    l.foldlM f st = Except.ok st := by
  induction l generalizing st with
  | nil => rfl
  | cons i rest ih =>
      rw [List.foldlM_cons, h st i (List.mem_cons_self i rest)]
      exact ih st (fun st j hj => h st j (List.mem_cons_of_mem _ hj))

/-- C10 (implicit): with `verbose=True` and an empty accumulated
combined mapping at the end of the run — the input symbol list is empty,
or every chunk fetch of both kinds raises — the summary line
`total_duration / len(all_combined_data)` divides by zero and
`gather_metrics` raises `ZeroDivisionError` instead of returning the
empty mapping. -/
theorem gather_metrics_verbose_empty_raises (env : ApiEnv) (dbOk : Bool)
    (symbols_list : List Symbol) (symbols_per_batch : Nat) (d db : ℚ)
    (hsess : env.sessionOk = true) (hspb : 0 < symbols_per_batch)
    (hempty : symbols_list = [] ∨
      (∀ ch, (∃ e, env.metricsRet ch = Except.error e) ∧
        (∃ e, env.marketRet ch = Except.error e))) :
    gatherMetrics env dbOk symbols_list symbols_per_batch d db true =
      Except.error PyErr.zeroDivisionError := by
  unfold gatherMetrics
  rw [hsess]
  simp only [Bool.not_true, Bool.false_eq_true, if_false,
    Nat.pos_iff_ne_zero.mp hspb, if_neg (Nat.pos_iff_ne_zero.mp hspb)]
  have hfold :
      (List.range ((symbols_list.length + symbols_per_batch - 1) /
          symbols_per_batch)).foldlM
        (fun (st : CombinedDict × List (List SqlVal)) batch_num => do
          let pr ← processSymbolBatch env dbOk
            ((symbols_list.drop (batch_num * symbols_per_batch)).take
              symbols_per_batch) d
          pure (dictUpdate st.1 pr.1, st.2 ++ pr.2))
        (([], []) : CombinedDict × List (List SqlVal)) =
      Except.ok ([], []) := by
    rcases hempty with hnil | hfail
    · subst hnil
      have : (([] : List Symbol).length + symbols_per_batch - 1) /
          symbols_per_batch = 0 :=
        Nat.div_eq_of_lt (by simp only [List.length_nil]; omega)
      rw [this]
      rfl
    · apply foldlM_pure_of_id
      intro st i _
      rw [show (do
          let pr ← processSymbolBatch env dbOk
            ((symbols_list.drop (i * symbols_per_batch)).take
              symbols_per_batch) d
          pure (dictUpdate st.1 pr.1, st.2 ++ pr.2) :
            Except PyErr (CombinedDict × List (List SqlVal))) =
          (processSymbolBatch env dbOk
            ((symbols_list.drop (i * symbols_per_batch)).take
              symbols_per_batch) d).bind
            (fun pr => Except.ok (dictUpdate st.1 pr.1, st.2 ++ pr.2))
        from rfl]
      rw [processSymbolBatch_all_fail env dbOk _ d hfail]
      show Except.ok (dictUpdate st.1 [], st.2 ++ []) = Except.ok st
      simp [dictUpdate]
  rw [hfold]
  rfl


/-- Witness for C10: one symbol, an environment in which every fetch
raises; `gather_metrics(..., verbose=True)` raises
`ZeroDivisionError`. -/
theorem gather_metrics_verbose_empty_raises_witness :
    (envAllFail.sessionOk = true ∧ 0 < 50 ∧
      ((["A"] : List Symbol) = [] ∨
        (∀ ch, (∃ e, envAllFail.metricsRet ch = Except.error e) ∧
          (∃ e, envAllFail.marketRet ch = Except.error e)))) ∧
    gatherMetrics envAllFail true ["A"] 50 (1 / 10) 1 true =
      Except.error PyErr.zeroDivisionError :=
  ⟨⟨rfl, by decide,
      Or.inr (fun _ => ⟨⟨PyErr.apiError, rfl⟩, ⟨PyErr.apiError, rfl⟩⟩)⟩,
    gather_metrics_verbose_empty_raises envAllFail true ["A"] 50 (1 / 10)
      1 rfl (by decide)
      (Or.inr (fun _ => ⟨⟨PyErr.apiError, rfl⟩, ⟨PyErr.apiError, rfl⟩⟩))⟩

/-! ### Counting inter-call delays (C8) -/

theorem fetch_foldl_metrics_sleeps (env : ApiEnv) (n : Nat) (d : ℚ)
    (hd : 0 < d) (ps : List (Nat × List Symbol))
    (acc : List MetricsRec × Nat) :
    (ps.foldl (fun acc p =>
      match env.metricsRet p.2 with
      | Except.ok metrics_data =>
          (acc.1 ++ metrics_data,
            acc.2 + if p.1 + 1 < n ∧ 0 < d then 1 else 0)
      | Except.error _ => acc) acc).2 =
      acc.2 + ps.countP
        (fun p => decide (p.1 + 1 < n) && (env.metricsRet p.2).isOk) := by
  induction ps generalizing acc with
  | nil => simp
  | cons p rest ih =>
      simp only [List.foldl_cons, List.countP_cons]
      cases hret : env.metricsRet p.2 with
      | ok md =>
          simp only [hret]
          rw [ih]
          by_cases hlt : p.1 + 1 < n <;>
            simp [Except.isOk, Except.toBool, hlt, hd] <;> omega
      | error e =>
          simp only [hret]
          rw [ih]
          simp [Except.isOk, Except.toBool]

theorem fetch_foldl_market_sleeps (env : ApiEnv) (n : Nat) (d : ℚ)
    (hd : 0 < d) (ps : List (Nat × List Symbol))
    (acc : List MarketRec × Nat) :
    (ps.foldl (fun acc p =>
      match env.marketRet p.2 with
      | Except.ok market_data =>
          (acc.1 ++ market_data,
            acc.2 + if p.1 + 1 < n ∧ 0 < d then 1 else 0)
      | Except.error _ => acc) acc).2 =
      acc.2 + ps.countP
        (fun p => decide (p.1 + 1 < n) && (env.marketRet p.2).isOk) := by
  induction ps generalizing acc with
  | nil => simp
  | cons p rest ih =>
      simp only [List.foldl_cons, List.countP_cons]
      cases hret : env.marketRet p.2 with
      | ok md =>
          simp only [hret]
          rw [ih]
          by_cases hlt : p.1 + 1 < n <;>
            simp [Except.isOk, Except.toBool, hlt, hd] <;> omega
      | error e =>
          simp only [hret]
          rw [ih]
          simp [Except.isOk, Except.toBool]

theorem countP_range_lt (n m : Nat) :
    (List.range n).countP (fun i => decide (i + 1 < m)) = min n (m - 1) := by
  induction n with
  | zero => simp
  | succ n ih =>
      rw [List.range_succ, List.countP_append, ih]
      by_cases h : n + 1 < m <;> simp [List.countP_cons, h] <;> omega


theorem fetchMetricsInBatches_sleeps (env : ApiEnv)
    (symbols_list : List Symbol) (d : ℚ) (hd : 0 < d) :
    (fetchMetricsInBatches env symbols_list d).2 =
      (chunkSymbols symbols_list 10).enum.countP
        (fun p => decide (p.1 + 1 < (chunkSymbols symbols_list 10).length)
          && (env.metricsRet p.2).isOk) := by
  unfold fetchMetricsInBatches
  rw [fetch_foldl_metrics_sleeps env _ d hd]
  simp

theorem fetchMarketDataInBatches_sleeps (env : ApiEnv)
    (symbols_list : List Symbol) (d : ℚ) (hd : 0 < d) :
    (fetchMarketDataInBatches env symbols_list d).2 =
      (chunkSymbols symbols_list 10).enum.countP
        (fun p => decide (p.1 + 1 < (chunkSymbols symbols_list 10).length)
          && (env.marketRet p.2).isOk) := by
  unfold fetchMarketDataInBatches
  rw [fetch_foldl_market_sleeps env _ d hd]
  simp

theorem countP_enum_lt {α : Type} (l : List α) (n : Nat) :
    l.enum.countP (fun p => decide (p.1 + 1 < n)) = min l.length (n - 1) := by
  have h1 := countP_range_lt l.length n
  rw [← List.enum_map_fst l, List.countP_map] at h1
  exact h1

theorem countP_congr_mem {α : Type} (l : List α) (f g : α → Bool)
    (h : ∀ a ∈ l, f a = g a) : l.countP f = l.countP g := by
  induction l with
  | nil => rfl
  | cons a rest ih =>
      simp only [List.countP_cons, h a (List.mem_cons_self a rest)]
      rw [ih (fun b hb => h b (List.mem_cons_of_mem _ hb))]

/-- C8 (amended): with a positive `delay_between_calls`, the number of
inter-call sleeps performed by either batched fetch equals the number of
SUCCESSFUL chunk calls among all but the last chunk: when every chunk
fetch succeeds this is exactly `k - 1` for `k` chunks (the delay is
skipped only after the last chunk); a chunk whose fetch raises skips the
delay that would have followed it, so with failures fewer than `k - 1`
delays occur. -/
theorem fetch_delay_between_calls (env : ApiEnv)
    (symbols_list : List Symbol) (d : ℚ) (hd : 0 < d) :
    ((fetchMetricsInBatches env symbols_list d).2 =
      (chunkSymbols symbols_list 10).enum.countP
        (fun p => decide (p.1 + 1 < (chunkSymbols symbols_list 10).length)
          && (env.metricsRet p.2).isOk)) ∧
    ((fetchMarketDataInBatches env symbols_list d).2 =
      (chunkSymbols symbols_list 10).enum.countP
        (fun p => decide (p.1 + 1 < (chunkSymbols symbols_list 10).length)
          && (env.marketRet p.2).isOk)) ∧
    ((∀ ch ∈ chunkSymbols symbols_list 10,
        (env.metricsRet ch).isOk = true) →
      (fetchMetricsInBatches env symbols_list d).2 =
        (chunkSymbols symbols_list 10).length - 1) ∧
    ((∀ ch ∈ chunkSymbols symbols_list 10,
        (env.marketRet ch).isOk = true) →
      (fetchMarketDataInBatches env symbols_list d).2 =
        (chunkSymbols symbols_list 10).length - 1) := by
  refine ⟨fetchMetricsInBatches_sleeps env symbols_list d hd,
    fetchMarketDataInBatches_sleeps env symbols_list d hd, ?_, ?_⟩
  · intro hok
    rw [fetchMetricsInBatches_sleeps env symbols_list d hd]
    rw [countP_congr_mem _ _
      (fun p => decide (p.1 + 1 < (chunkSymbols symbols_list 10).length))
      (fun p hp => by
        rw [hok p.2 (snd_mem_of_mem_enum hp), Bool.and_true])]
    rw [countP_enum_lt]
    omega
  · intro hok
    rw [fetchMarketDataInBatches_sleeps env symbols_list d hd]
    rw [countP_congr_mem _ _
      (fun p => decide (p.1 + 1 < (chunkSymbols symbols_list 10).length))
      (fun p hp => by
        rw [hok p.2 (snd_mem_of_mem_enum hp), Bool.and_true])]
    rw [countP_enum_lt]
    omega

/-- Witness for C8 (amended) at a concrete input: one chunk of two
symbols, all calls succeeding, zero sleeps (`k - 1 = 0`). -/
theorem fetch_delay_between_calls_witness :
    (0 : ℚ) < 1 ∧
    ((fetchMetricsInBatches envC8 ["A", "B"] 1).2 =
      (chunkSymbols ["A", "B"] 10).enum.countP
        (fun p => decide (p.1 + 1 < (chunkSymbols ["A", "B"] 10).length)
          && (envC8.metricsRet p.2).isOk)) :=
  ⟨by decide, (fetch_delay_between_calls envC8 ["A", "B"] 1 (by decide)).1⟩

/-- Counterexample for C8 as stated: `symbolsC8` has 11 symbols, hence
`k = 2` chunks; the metrics fetch of the first (full, size-10) chunk
raises under `envC8`, the second succeeds; with a positive delay the run
performs 0 inter-call sleeps, not `k - 1 = 1` — the delay between the
two consecutive chunk calls is skipped because the first call raised. -/
theorem fetch_delay_between_calls_counterexample :
    (chunkSymbols symbolsC8 10).length = 2 ∧
    envC8.metricsRet (symbolsC8.take 10) = Except.error PyErr.apiError ∧
    (0 : ℚ) < 1 ∧
    (fetchMetricsInBatches envC8 symbolsC8 1).2 = 0 ∧
    ¬ (fetchMetricsInBatches envC8 symbolsC8 1).2 =
      (chunkSymbols symbolsC8 10).length - 1 := by
  refine ⟨by decide, rfl, by decide, by decide, by decide⟩


/-! ### Persistence coercions (C7) -/

theorem coerceFloat_ok_of {v : PyVal} (h : NumOrNoneVal v) :
    ∃ sv, coerceFloat v = Except.ok sv := by
  rcases h with rfl | ⟨q, rfl⟩
  · exact ⟨SqlVal.null, rfl⟩
  · exact ⟨SqlVal.real q, rfl⟩

theorem coerceInt_ok_of {v : PyVal} (h : NumOrNoneVal v) :
    ∃ sv, coerceInt v = Except.ok sv := by
  rcases h with rfl | ⟨q, rfl⟩
  · exact ⟨SqlVal.null, rfl⟩
  · exact ⟨SqlVal.int (if 0 ≤ q then ⌊q⌋ else ⌈q⌉), rfl⟩

theorem storeMetricDataParams_ok (metrics_data : PyDict)
    (h : ∀ k ∈ metricNumericKeys, NumOrNoneVal (pyGet metrics_data k)) :
    ∃ row, storeMetricDataParams metrics_data = Except.ok row := by
  obtain ⟨v01, h01⟩ := coerceFloat_ok_of (h "bid" (by decide))
  obtain ⟨v02, h02⟩ := coerceFloat_ok_of (h "ask" (by decide))
  obtain ⟨v03, h03⟩ := coerceFloat_ok_of (h "last_price" (by decide))
  obtain ⟨v04, h04⟩ := coerceFloat_ok_of (h "close_price" (by decide))
  obtain ⟨v05, h05⟩ := coerceInt_ok_of (h "volume" (by decide))
  obtain ⟨v06, h06⟩ := coerceFloat_ok_of (h "iv_index" (by decide))
  obtain ⟨v07, h07⟩ := coerceFloat_ok_of (h "iv_rank" (by decide))
  obtain ⟨v08, h08⟩ := coerceFloat_ok_of (h "iv_percentile" (by decide))
  obtain ⟨v09, h09⟩ := coerceFloat_ok_of (h "liquidity_rating" (by decide))
  obtain ⟨v10, h10⟩ := coerceFloat_ok_of (h "liquidity_value" (by decide))
  obtain ⟨v11, h11⟩ := coerceFloat_ok_of (h "iv_30_day" (by decide))
  obtain ⟨v12, h12⟩ := coerceFloat_ok_of (h "hv_30_day" (by decide))
  obtain ⟨v13, h13⟩ := coerceFloat_ok_of (h "iv_hv_difference" (by decide))
  obtain ⟨v14, h14⟩ := coerceFloat_ok_of (h "hv_60_day" (by decide))
  obtain ⟨v15, h15⟩ := coerceFloat_ok_of (h "hv_90_day" (by decide))
  obtain ⟨v16, h16⟩ := coerceFloat_ok_of (h "beta" (by decide))
  have hparams : storeMetricDataParams metrics_data =
      Except.ok [SqlVal.raw (pyGet metrics_data "symbol"), v01, v02, v03,
        v04, v05, v06, v07, v08, v09, v10, v11, v12, v13, v14, v15, v16,
        SqlVal.raw (pyGet metrics_data "earnings_expected_date"),
        SqlVal.raw (pyGet metrics_data "earnings_time_of_day")] := by
    unfold storeMetricDataParams
    rw [h01, h02, h03, h04, h05, h06, h07, h08, h09, h10, h11, h12, h13,
      h14, h15, h16]
    rfl
  exact ⟨_, hparams⟩

theorem storeMetricData_ok (dbOk : Bool) (metrics_data : PyDict)
    (h : ∀ k ∈ metricNumericKeys, NumOrNoneVal (pyGet metrics_data k)) :
    ∃ row, storeMetricData dbOk metrics_data = Except.ok row := by
  obtain ⟨row, hrow⟩ := storeMetricDataParams_ok metrics_data h
  refine ⟨row, ?_⟩
  unfold storeMetricData
  rw [hrow]
  cases dbOk <;> rfl

theorem pyGetItem_eq_ok (d : PyDict) (k : String)
    (h : (d.find? (fun p => p.1 == k)).isSome) :
    pyGetItem d k = Except.ok (pyGet d k) := by
  cases hf : d.find? (fun p => p.1 == k) with
  | none => rw [hf] at h; cases h
  | some p => simp [pyGetItem, pyGet, hf]

theorem bracketCoerceFloat_ok (d : PyDict) (k : String)
    (hpresent : (d.find? (fun p => p.1 == k)).isSome)
    (hval : NumOrNoneVal (pyGet d k)) :
    ∃ sv, bracketCoerceFloat d k = Except.ok sv := by
  obtain ⟨sv, hsv⟩ := coerceFloat_ok_of hval
  refine ⟨sv, ?_⟩
  unfold bracketCoerceFloat
  rw [pyGetItem_eq_ok d k hpresent]
  exact hsv

theorem storeCandleData_ok (dbOk : Bool) (candle_data : PyDict)
    (h : ∀ k ∈ candleBracketKeys,
      (candle_data.find? (fun p => p.1 == k)).isSome ∧
        NumOrNoneVal (pyGet candle_data k)) :
    ∃ row, storeCandleData dbOk candle_data = Except.ok row := by
  obtain ⟨v1, h1⟩ := bracketCoerceFloat_ok candle_data "volume"
    (h "volume" (by decide)).1 (h "volume" (by decide)).2
  obtain ⟨v2, h2⟩ := bracketCoerceFloat_ok candle_data "bid_volume"
    (h "bid_volume" (by decide)).1 (h "bid_volume" (by decide)).2
  obtain ⟨v3, h3⟩ := bracketCoerceFloat_ok candle_data "ask_volume"
    (h "ask_volume" (by decide)).1 (h "ask_volume" (by decide)).2
  obtain ⟨v4, h4⟩ := bracketCoerceFloat_ok candle_data "imp_volatility"
    (h "imp_volatility" (by decide)).1 (h "imp_volatility" (by decide)).2
  have hrow : storeCandleData dbOk candle_data =
      Except.ok [SqlVal.raw (pyGet candle_data "event_type"),
        SqlVal.raw (pyGet candle_data "event_symbol"),
        SqlVal.raw (pyGet candle_data "time"),
        SqlVal.raw (pyGet candle_data "open"),
        SqlVal.raw (pyGet candle_data "high"),
        SqlVal.raw (pyGet candle_data "low"),
        SqlVal.raw (pyGet candle_data "close"),
        v1, v2, v3, v4,
        SqlVal.raw (pyGet candle_data "iv_index"),
        SqlVal.raw (pyGet candle_data "iv_index_5_day_change"),
        SqlVal.raw (pyGet candle_data "iv_index_rank"),
        SqlVal.raw (pyGet candle_data "tos_iv_index_rank"),
        SqlVal.raw (pyGet candle_data "tw_iv_index_rank"),
        SqlVal.raw (pyGet candle_data "iv_percentile"),
        SqlVal.raw (pyGet candle_data "liquidity_rating"),
        SqlVal.raw (pyGet candle_data "beta"),
        SqlVal.raw (pyGet candle_data "corr_spy_3month"),
        SqlVal.raw (pyGet candle_data "liquidity_value"),
        SqlVal.raw (pyGet candle_data "liquidity_rank")] := by
    unfold storeCandleData
    rw [h1, h2, h3, h4]
    cases dbOk <;> rfl
  exact ⟨_, hrow⟩


/-- C7 (amended): for records whose numeric fields are numbers or
`None`, `store_metric_data` never throws (absent fields read with
`.get` behave as `None`); a `None` (or absent) numeric value is coerced
to the explicit SQL null, never to zero; a numeric value is coerced to
its float (or truncated int for `volume`); and `store_candle_data`
does not throw provided its four bracket-indexed keys (`volume`,
`bid_volume`, `ask_volume`, `imp_volatility`) are PRESENT — absence of
one of those four raises `KeyError` (see the counterexample), which is
the part of the original claim that fails. -/
theorem store_null_coercion_spec (dbOk : Bool) (metrics_data : PyDict)
    (h : ∀ k ∈ metricNumericKeys, NumOrNoneVal (pyGet metrics_data k)) :
    (∃ row, storeMetricData dbOk metrics_data = Except.ok row) ∧
    (coerceFloat (PyVal.leaf PyLeaf.none_) = Except.ok SqlVal.null ∧
      coerceInt (PyVal.leaf PyLeaf.none_) = Except.ok SqlVal.null) ∧
    (∀ q : ℚ, coerceFloat (PyVal.leaf (PyLeaf.num q)) =
        Except.ok (SqlVal.real q) ∧
      coerceInt (PyVal.leaf (PyLeaf.num q)) =
        Except.ok (SqlVal.int (if 0 ≤ q then ⌊q⌋ else ⌈q⌉))) ∧
    (∀ (d : PyDict) (k : String), (∀ p ∈ d, p.1 ≠ k) →
      pyGet d k = PyVal.leaf PyLeaf.none_) ∧
    (∀ q : ℚ, SqlVal.null ≠ SqlVal.real q ∧ SqlVal.null ≠ SqlVal.int ⌊q⌋) ∧
    (∀ candle_data : PyDict,
      (∀ k ∈ candleBracketKeys,
        (candle_data.find? (fun p => p.1 == k)).isSome ∧
          NumOrNoneVal (pyGet candle_data k)) →
      ∃ row, storeCandleData dbOk candle_data = Except.ok row) := by
  refine ⟨storeMetricData_ok dbOk metrics_data h, ⟨rfl, rfl⟩,
    fun q => ⟨rfl, rfl⟩, ?_, fun q => ⟨fun hcon => ?_, fun hcon => ?_⟩,
    fun cd hcd => storeCandleData_ok dbOk cd hcd⟩
  · intro d k hk
    unfold pyGet
    cases hf : d.find? (fun p => p.1 == k) with
    | none => rfl
    | some p =>
        have hmem := List.mem_of_find?_eq_some hf
        have hpred := List.find?_some hf
        exact absurd (by simpa using hpred) (hk p hmem)
  · cases hcon
  · cases hcon

/-- Witness for C7 (amended): a metrics record with a numeric bid and a
`None` beta stores successfully. -/
theorem store_null_coercion_spec_witness :
    (∀ k ∈ metricNumericKeys,
      NumOrNoneVal (pyGet [("bid", PyVal.leaf (PyLeaf.num 2)),
        ("beta", PyVal.leaf PyLeaf.none_)] k)) ∧
    ∃ row, storeMetricData true [("bid", PyVal.leaf (PyLeaf.num 2)),
      ("beta", PyVal.leaf PyLeaf.none_)] = Except.ok row := by
  have h : ∀ k ∈ metricNumericKeys,
      NumOrNoneVal (pyGet [("bid", PyVal.leaf (PyLeaf.num 2)),
        ("beta", PyVal.leaf PyLeaf.none_)] k) := by
    intro k hk
    fin_cases hk <;> first
      | exact Or.inr ⟨2, rfl⟩
      | exact Or.inl rfl
  exact ⟨h, (store_null_coercion_spec true _ h).1⟩

/-- Counterexample for C7 as stated: a candle record lacking the
`imp_volatility` key makes `store_candle_data` raise `KeyError` — the
bracket access `candle_data['imp_volatility']` happens before the
guarded insert — contradicting "an absent field does not cause the
store operation to throw". -/
theorem store_candle_data_absent_field_raises :
    storeCandleData true
      [("event_type", PyVal.leaf (PyLeaf.str "Candle")),
        ("event_symbol", PyVal.leaf (PyLeaf.str "SPY")),
        ("time", PyVal.leaf (PyLeaf.num 0)),
        ("open", PyVal.leaf (PyLeaf.num 1)),
        ("high", PyVal.leaf (PyLeaf.num 1)),
        ("low", PyVal.leaf (PyLeaf.num 1)),
        ("close", PyVal.leaf (PyLeaf.num 1)),
        ("volume", PyVal.leaf (PyLeaf.num 2)),
        ("bid_volume", PyVal.leaf PyLeaf.none_),
        ("ask_volume", PyVal.leaf PyLeaf.none_)] =
      Except.error PyErr.keyError := rfl


/-! ### Streaming subscription lifecycle (C6, C9) -/

/-- C6: from every object state and for every outcome of the external
calls (awaiting the cancelled task returning, re-raising
`CancelledError`, or raising any other exception; unsubscribe and
`__aexit__` failing or not), `stop()` raises nothing — its whole body is
guarded — and, being a total function of the modelled await outcomes, it
returns (the in-repo listen task acknowledges cancellation, so the await
completes; real-time bounds are outside the model).  In particular a
second call on the resulting state raises nothing either, covering
stop-before-connect and stop-twice. -/
theorem stop_never_raises (st : SubState) (env : StreamEnv) :
    (stopRun st env).2 = none ∧
      (stopRun (stopRun st env).1 env).2 = none := by
  obtain ⟨syms, sess, strm, isr, lt⟩ := st
  constructor
  · unfold stopRun cleanupRun
    cases lt with
    | none => cases strm <;> cases env.aexitOk <;> rfl
    | some t =>
        cases t <;> cases env.awaitOutcome <;> cases strm <;>
          cases env.aexitOk <;> rfl
  · unfold stopRun cleanupRun
    cases lt with
    | none => cases strm <;> cases env.aexitOk <;> rfl
    | some t =>
        cases t <;> cases env.awaitOutcome <;> cases strm <;>
          cases env.aexitOk <;> rfl

theorem cleanupRun_clears (st : SubState) (env : StreamEnv) :
    (cleanupRun st env).streamer = none ∧
      (cleanupRun st env).session = none := by
  obtain ⟨syms, sess, strm, isr, lt⟩ := st
  unfold cleanupRun
  cases strm <;> cases env.aexitOk <;> exact ⟨rfl, rfl⟩

theorem stopRun_symbols (st : SubState) (env : StreamEnv) :
    ((stopRun st env).1).symbols = st.symbols := by
  obtain ⟨syms, sess, strm, isr, lt⟩ := st
  unfold stopRun cleanupRun
  cases lt with
  | none => cases strm <;> cases env.aexitOk <;> rfl
  | some t =>
      cases t <;> cases env.awaitOutcome <;> cases strm <;>
        cases env.aexitOk <;> rfl

theorem connectBody_raises (st0 : SubState) (env : StreamEnv)
    (h : pyTruthyStr env.clientSecret = false ∨
      pyTruthyStr env.refreshToken = false ∨ st0.symbols = []) :
    ∃ stb e, connectBody st0 env = (stb, some e) := by
  unfold connectBody
  by_cases h1 :
      (!pyTruthyStr env.clientSecret || !pyTruthyStr env.refreshToken) =
        true
  · rw [if_pos h1]
    exact ⟨st0, PyErr.valueError, rfl⟩
  · rw [if_neg h1]
    by_cases h2 : (!env.sessionCtorOk) = true
    · rw [if_pos h2]
      exact ⟨st0, PyErr.other, rfl⟩
    · rw [if_neg h2]
      have hsym : st0.symbols = [] := by
        rcases h with h | h | h
        · exact absurd (by simp [h]) h1
        · exact absurd (by simp [h]) h1
        · exact h
      rw [if_pos (by simp [hsym])]
      exact ⟨_, PyErr.valueError, rfl⟩

theorem connectRun_shape (st : SubState) (env : StreamEnv) :
    (∃ stb e, connectRun st env = (cleanupRun stb env, some e)) ∨
      (connectRun st env).2 = none := by
  unfold connectRun
  cases hb : connectBody (connectPre st env) env with
  | mk stb oe =>
      cases oe with
      | none => exact Or.inr rfl
      | some e => exact Or.inl ⟨stb, e, rfl⟩

/-- C9: `connect()` raises — propagating the error — whenever the
configured credentials are missing (empty) or the symbol list is empty;
and whenever `connect()` propagates any error, the `except` arm has run
`cleanup()` first, so the returned object state holds no stream handle
and no session. -/
theorem connect_config_error_and_cleanup (st : SubState)
    (env : StreamEnv)
    (h : pyTruthyStr env.clientSecret = false ∨
      pyTruthyStr env.refreshToken = false ∨ st.symbols = []) :
    (∃ e, (connectRun st env).2 = some e) ∧
    (∀ (st2 : SubState) (env2 : StreamEnv) (e : PyErr),
      (connectRun st2 env2).2 = some e →
        (connectRun st2 env2).1.streamer = none ∧
        (connectRun st2 env2).1.session = none) := by
  constructor
  · have hs0 : (connectPre st env).symbols = st.symbols := by
      unfold connectPre
      cases st.streamer with
      | none => rfl
      | some u => exact stopRun_symbols st env
    obtain ⟨stb, e, hbody⟩ := connectBody_raises (connectPre st env) env
      (by
        rcases h with h | h | h
        · exact Or.inl h
        · exact Or.inr (Or.inl h)
        · exact Or.inr (Or.inr (hs0.trans h)))
    refine ⟨e, ?_⟩
    unfold connectRun
    rw [hbody]
  · intro st2 env2 e he
    rcases connectRun_shape st2 env2 with ⟨stb, e2, heq⟩ | hnone
    · rw [heq]
      exact cleanupRun_clears stb env2
    · rw [hnone] at he
      cases he

/-- Witness for C9: a freshly initialized subscription with an empty
symbol list and missing credentials; `connect` raises and leaves no
stream handle or session. -/
theorem connect_config_error_and_cleanup_witness :
    (pyTruthyStr "" = false ∨ pyTruthyStr "tok" = false ∨
      (⟨[], none, none, false, none⟩ : SubState).symbols = []) ∧
    ∃ e, (connectRun ⟨[], none, none, false, none⟩
      ⟨"", "tok", true, true, true, true, true, AwaitOutcome.ok⟩).2 =
        some e :=
  ⟨Or.inl rfl,
    (connect_config_error_and_cleanup ⟨[], none, none, false, none⟩
      ⟨"", "tok", true, true, true, true, true, AwaitOutcome.ok⟩
      (Or.inl rfl)).1⟩


/-! ### Historical download loop (C5) -/

theorem setInsert_mem (l : List String) (x s : String) :
    s ∈ setInsert l x ↔ s ∈ l ∨ s = x := by
  unfold setInsert
  by_cases h : x ∈ l
  · rw [if_pos h]
    constructor
    · exact Or.inl
    · rintro (h1 | rfl)
      · exact h1
      · exact h
  · rw [if_neg h]
    simp

theorem setInsert_nodup (l : List String) (x : String) (h : l.Nodup) :
    (setInsert l x).Nodup := by
  unfold setInsert
  by_cases hx : x ∈ l
  · rwa [if_pos hx]
  · rw [if_neg hx]
    simp [List.nodup_append, h, hx]

theorem setInsert_subset {l : List String} {x : String}
    {S : List String} (hl : ∀ s ∈ l, s ∈ S) (hx : x ∈ S) :
    ∀ s ∈ setInsert l x, s ∈ S := by
  intro s hs
  rcases (setInsert_mem l x s).mp hs with h | rfl
  · exact hl s h
  · exact hx

theorem nodup_subset_length {l S : List String} (hnd : l.Nodup)
    (hsub : ∀ s ∈ l, s ∈ S) : l.length ≤ S.length := by
  have h1 : l.toFinset.card = l.length := List.toFinset_card_of_nodup hnd
  have h2 : S.toFinset.card ≤ S.length := S.toFinset_card_le
  have h3 : l.toFinset ⊆ S.toFinset := by
    intro a ha
    simp only [List.mem_toFinset] at ha ⊢
    exact hsub a ha
  have h4 := Finset.card_le_card h3
  omega

theorem covers_of_nodup_subset_length_eq {l S : List String}
    (hndl : l.Nodup) (hndS : S.Nodup) (hsub : ∀ s ∈ l, s ∈ S)
    (hlen : l.length = S.length) : ∀ s ∈ S, s ∈ l := by
  have h3 : l.toFinset ⊆ S.toFinset := by
    intro a ha
    simp only [List.mem_toFinset] at ha ⊢
    exact hsub a ha
  have heq : l.toFinset = S.toFinset :=
    Finset.eq_of_subset_of_card_le h3
      (by
        rw [List.toFinset_card_of_nodup hndl,
          List.toFinset_card_of_nodup hndS]
        omega)
  intro s hs
  have hmem : s ∈ S.toFinset := List.mem_toFinset.mpr hs
  rw [← heq] at hmem
  exact List.mem_toFinset.mp hmem

theorem histLookup_mapUpdate (d : HistData) (k : String) (v : PyDict)
    (s : String) :
    histLookup (d.map (fun p => if p.1 == k then (p.1, p.2 ++ [v]) else p))
        s =
      if k = s then (histLookup d s).map (fun l => l ++ [v])
      else histLookup d s := by
  induction d with
  | nil => by_cases hks : k = s <;> simp [histLookup, hks]
  | cons p rest ih =>
      simp only [List.map_cons, beq_iff_eq] at ih ⊢
      by_cases hpk : p.1 = k
      · subst hpk
        by_cases hps : p.1 = s
        · subst hps; simp [histLookup]
        · simp [histLookup, beq_iff_eq, hps, ih]
      · by_cases hps : p.1 = s
        · subst hps
          have hkp : ¬ k = p.1 := fun h => hpk h.symm
          simp [histLookup, beq_iff_eq, hpk, hkp]
        · simp [histLookup, beq_iff_eq, hpk, hps, ih]

theorem histAppend_ok {d : HistData} {k : String} {v : PyDict}
    (h : k ∈ d.map Prod.fst) :
    ∃ d2, histAppend d k v = Except.ok d2 ∧
      d2.map Prod.fst = d.map Prod.fst ∧
      ∀ s, histLookup d2 s =
        if k = s then (histLookup d s).map (fun l => l ++ [v])
        else histLookup d s := by
  unfold histAppend
  have hany : d.any (fun p => p.1 == k) = true := by
    simp only [List.any_eq_true, beq_iff_eq]
    obtain ⟨p, hp, rfl⟩ := List.mem_map.mp h
    exact ⟨p, hp, rfl⟩
  rw [if_pos hany]
  refine ⟨_, rfl, ?_, fun s => histLookup_mapUpdate d k v s⟩
  rw [List.map_map]
  apply List.map_congr_left
  intro p _
  by_cases hpk : p.1 = k <;> simp [Function.comp, hpk]

theorem histLookup_init (symbols : List String) (s : String) :
    histLookup (symbols.map (fun s => (s, ([] : List PyDict)))) s =
      if s ∈ symbols then some [] else none := by
  induction symbols with
  | nil => simp [histLookup]
  | cons x rest ih =>
      by_cases hxs : x = s
      · subst hxs; simp [histLookup]
      · simp only [List.map_cons, histLookup, beq_iff_eq, hxs, if_false,
          ih, List.mem_cons]
        by_cases hmem : s ∈ rest
        · rw [if_pos hmem, if_pos (Or.inr hmem)]
        · rw [if_neg hmem, if_neg (by
            rintro (rfl | h)
            · exact hxs rfl
            · exact hmem h)]


theorem downloadLoop_spec (symbols : List String) (start_ms : ℤ)
    (hndS : symbols.Nodup) :
    ∀ (stream : List Candle) (data : HistData) (completed : List String),
      (∀ c ∈ stream, extractSymbol c.event_symbol ∈ symbols) →
      data.map Prod.fst = symbols →
      (∀ s ∈ completed, s ∈ symbols) →
      completed.Nodup →
      completed.length < symbols.length →
      ∃ data2 completed2 reason,
        downloadLoop symbols start_ms stream data completed =
          Except.ok (data2, completed2, reason) ∧
        (reason = StopReason.allComplete ↔
          ∀ s ∈ symbols, s ∈ completed ∨
            ∃ c ∈ stream, extractSymbol c.event_symbol = s ∧
              (c.time < start_ms ∨ c.close = 0)) ∧
        (reason = StopReason.timeout →
          ∀ s, histLookup data2 s =
            (histLookup data s).map (fun l =>
              l ++ ((stream.filter (fun c =>
                extractSymbol c.event_symbol == s &&
                  keptCandle start_ms c)).map Candle.payload))) := by
  intro stream
  induction stream with
  | nil =>
      intro data completed hsym hkeys hsub hnd hlt
      refine ⟨data, completed, StopReason.timeout, rfl, ?_, ?_⟩
      · constructor
        · intro hcon; cases hcon
        · intro hall
          exfalso
          have hcov : ∀ s ∈ symbols, s ∈ completed := by
            intro s hs
            rcases hall s hs with h | ⟨c, hc, _⟩
            · exact h
            · cases hc
          have hle := nodup_subset_length hndS hcov
          omega
      · intro _ s
        simp [List.filter_nil]
  | cons c rest ih =>
      intro data completed hsym hkeys hsub hnd hlt
      have hsymmem : extractSymbol c.event_symbol ∈ symbols :=
        hsym c (List.mem_cons_self c rest)
      by_cases htime : c.time < start_ms
      · by_cases hdone :
            (setInsert completed (extractSymbol c.event_symbol)).length =
              symbols.length
        · refine ⟨data, setInsert completed (extractSymbol c.event_symbol),
            StopReason.allComplete, ?_, ?_, ?_⟩
          · simp only [downloadLoop]
            rw [if_pos htime, if_pos hdone]
          · have hnd2 := setInsert_nodup completed
              (extractSymbol c.event_symbol) hnd
            have hsub2 := setInsert_subset hsub hsymmem
            have hcov := covers_of_nodup_subset_length_eq hnd2 hndS hsub2
              hdone
            constructor
            · intro _ s hs
              rcases (setInsert_mem completed
                  (extractSymbol c.event_symbol) s).mp (hcov s hs) with
                h1 | rfl
              · exact Or.inl h1
              · exact Or.inr ⟨c, List.mem_cons_self c rest, rfl,
                  Or.inl htime⟩
            · intro _; rfl
          · intro hcon; cases hcon
        · have hsub2 := setInsert_subset hsub hsymmem
          have hnd2 := setInsert_nodup completed
            (extractSymbol c.event_symbol) hnd
          have hle := nodup_subset_length hnd2 hsub2
          have hlt2 : (setInsert completed
              (extractSymbol c.event_symbol)).length < symbols.length :=
            lt_of_le_of_ne hle hdone
          obtain ⟨data2, completed2, reason, heq, hiff, hdata⟩ :=
            ih data (setInsert completed (extractSymbol c.event_symbol))
              (fun c2 hc2 => hsym c2 (List.mem_cons_of_mem c hc2)) hkeys
              hsub2 hnd2 hlt2
          refine ⟨data2, completed2, reason, ?_, ?_, ?_⟩
          · simp only [downloadLoop]
            rw [if_pos htime, if_neg hdone]
            exact heq
          · rw [hiff]
            constructor
            · intro h s hs
              rcases h s hs with hc1 | ⟨c2, hc2, hcsym, hccomp⟩
              · rcases (setInsert_mem completed
                    (extractSymbol c.event_symbol) s).mp hc1 with h1 | rfl
                · exact Or.inl h1
                · exact Or.inr ⟨c, List.mem_cons_self c rest, rfl,
                    Or.inl htime⟩
              · exact Or.inr ⟨c2, List.mem_cons_of_mem c hc2, hcsym,
                  hccomp⟩
            · intro h s hs
              rcases h s hs with h1 | ⟨c2, hc2, hcsym, hccomp⟩
              · exact Or.inl ((setInsert_mem completed
                  (extractSymbol c.event_symbol) s).mpr (Or.inl h1))
              · rcases List.mem_cons.mp hc2 with rfl | hcrest
                · exact Or.inl ((setInsert_mem completed
                    (extractSymbol c2.event_symbol) s).mpr
                    (Or.inr hcsym.symm))
                · exact Or.inr ⟨c2, hcrest, hcsym, hccomp⟩
          · intro htimeout s
            rw [hdata htimeout s]
            have hkept : keptCandle start_ms c = false := by
              simp [keptCandle, htime]
            rw [List.filter_cons,
              show (extractSymbol c.event_symbol == s &&
                keptCandle start_ms c) = false from by
                  rw [hkept, Bool.and_false]]
            simp
      · by_cases hclose : c.close = 0
        · by_cases hdone :
              (setInsert completed (extractSymbol c.event_symbol)).length =
                symbols.length
          · refine ⟨data, setInsert completed
              (extractSymbol c.event_symbol),
              StopReason.allComplete, ?_, ?_, ?_⟩
            · simp only [downloadLoop]
              rw [if_neg htime, if_pos hclose, if_pos hdone]
            · have hnd2 := setInsert_nodup completed
                (extractSymbol c.event_symbol) hnd
              have hsub2 := setInsert_subset hsub hsymmem
              have hcov := covers_of_nodup_subset_length_eq hnd2 hndS
                hsub2 hdone
              constructor
              · intro _ s hs
                rcases (setInsert_mem completed
                    (extractSymbol c.event_symbol) s).mp (hcov s hs) with
                  h1 | rfl
                · exact Or.inl h1
                · exact Or.inr ⟨c, List.mem_cons_self c rest, rfl,
                    Or.inr hclose⟩
              · intro _; rfl
            · intro hcon; cases hcon
          · have hsub2 := setInsert_subset hsub hsymmem
            have hnd2 := setInsert_nodup completed
              (extractSymbol c.event_symbol) hnd
            have hle := nodup_subset_length hnd2 hsub2
            have hlt2 : (setInsert completed
                (extractSymbol c.event_symbol)).length < symbols.length :=
              lt_of_le_of_ne hle hdone
            obtain ⟨data2, completed2, reason, heq, hiff, hdata⟩ :=
              ih data (setInsert completed (extractSymbol c.event_symbol))
                (fun c2 hc2 => hsym c2 (List.mem_cons_of_mem c hc2)) hkeys
                hsub2 hnd2 hlt2
            refine ⟨data2, completed2, reason, ?_, ?_, ?_⟩
            · simp only [downloadLoop]
              rw [if_neg htime, if_pos hclose, if_neg hdone]
              exact heq
            · rw [hiff]
              constructor
              · intro h s hs
                rcases h s hs with hc1 | ⟨c2, hc2, hcsym, hccomp⟩
                · rcases (setInsert_mem completed
                      (extractSymbol c.event_symbol) s).mp hc1 with
                    h1 | rfl
                  · exact Or.inl h1
                  · exact Or.inr ⟨c, List.mem_cons_self c rest, rfl,
                      Or.inr hclose⟩
                · exact Or.inr ⟨c2, List.mem_cons_of_mem c hc2, hcsym,
                    hccomp⟩
              · intro h s hs
                rcases h s hs with h1 | ⟨c2, hc2, hcsym, hccomp⟩
                · exact Or.inl ((setInsert_mem completed
                    (extractSymbol c.event_symbol) s).mpr (Or.inl h1))
                · rcases List.mem_cons.mp hc2 with rfl | hcrest
                  · exact Or.inl ((setInsert_mem completed
                      (extractSymbol c2.event_symbol) s).mpr
                      (Or.inr hcsym.symm))
                  · exact Or.inr ⟨c2, hcrest, hcsym, hccomp⟩
            · intro htimeout s
              rw [hdata htimeout s]
              have hkept : keptCandle start_ms c = false := by
                simp [keptCandle, htime, hclose]
              rw [List.filter_cons,
                show (extractSymbol c.event_symbol == s &&
                  keptCandle start_ms c) = false from by
                    rw [hkept, Bool.and_false]]
              simp
        · obtain ⟨dataA, happ, hkeysA, hlookA⟩ :=
            histAppend_ok (v := c.payload) (hkeys ▸ hsymmem)
          obtain ⟨data2, completed2, reason, heq, hiff, hdata⟩ :=
            ih dataA completed
              (fun c2 hc2 => hsym c2 (List.mem_cons_of_mem c hc2))
              (hkeysA.trans hkeys) hsub hnd hlt
          refine ⟨data2, completed2, reason, ?_, ?_, ?_⟩
          · simp only [downloadLoop]
            rw [if_neg htime, if_neg hclose, happ]
            exact heq
          · rw [hiff]
            constructor
            · intro h s hs
              rcases h s hs with hc1 | ⟨c2, hc2, hcsym, hccomp⟩
              · exact Or.inl hc1
              · exact Or.inr ⟨c2, List.mem_cons_of_mem c hc2, hcsym,
                  hccomp⟩
            · intro h s hs
              rcases h s hs with h1 | ⟨c2, hc2, hcsym, hccomp⟩
              · exact Or.inl h1
              · rcases List.mem_cons.mp hc2 with rfl | hcrest
                · rcases hccomp with h2 | h2
                  · exact absurd h2 htime
                  · exact absurd h2 hclose
                · exact Or.inr ⟨c2, hcrest, hcsym, hccomp⟩
          · intro htimeout s
            rw [hdata htimeout s, hlookA s]
            have hkept : keptCandle start_ms c = true := by
              simp [keptCandle, htime, hclose]
            rw [List.filter_cons]
            by_cases hcs : extractSymbol c.event_symbol = s
            · rw [if_pos hcs,
                show (extractSymbol c.event_symbol == s &&
                  keptCandle start_ms c) = true from by
                    rw [hkept, Bool.and_true, beq_iff_eq]
                    exact hcs]
              cases hfv : histLookup data s with
              | none => rfl
              | some l => simp [List.append_assoc]
            · rw [if_neg hcs,
                show (extractSymbol c.event_symbol == s &&
                  keptCandle start_ms c) = false from by
                    rw [hkept, Bool.and_true]
                    exact beq_eq_false_iff_ne.mpr hcs]
              simp


/-- C5: the consumption loop of `download_historical_data` — consuming
the finite stream of candles delivered before a 3-second silence, whose
exhaustion models the `asyncio.wait_for` timeout — terminates with
`allComplete` exactly when every requested symbol has a completion
signal in the stream (a candle timestamped before the window start, or a
zero-close sentinel), and otherwise terminates at the timeout; in the
timeout case the collected data per symbol is exactly the payloads of
its non-completion candles, so an unresponsive symbol ends with only the
other symbols' data collected (the witness instantiates symbols `[X,Y]`
with X sending a zero-close sentinel and Y silent). -/
theorem download_historical_terminates (symbols : List String)
    (start_ms : ℤ) (stream : List Candle) (hne : symbols ≠ [])
    (hnd : symbols.Nodup)
    (hsym : ∀ c ∈ stream, extractSymbol c.event_symbol ∈ symbols) :
    ∃ data completed reason,
      downloadHistoricalData symbols start_ms stream =
        Except.ok (data, completed, reason) ∧
      (reason = StopReason.allComplete ↔
        ∀ s ∈ symbols, ∃ c ∈ stream,
          extractSymbol c.event_symbol = s ∧
            (c.time < start_ms ∨ c.close = 0)) ∧
      (reason = StopReason.timeout →
        ∀ s ∈ symbols, histLookup data s =
          some (((stream.filter (fun c =>
            extractSymbol c.event_symbol == s &&
              keptCandle start_ms c)).map Candle.payload))) := by
  have hkeys : (symbols.map
      (fun s => (s, ([] : List PyDict)))).map Prod.fst = symbols := by
    rw [List.map_map]
    exact List.map_id symbols
  have hlt : ([] : List String).length < symbols.length := by
    cases symbols with
    | nil => exact absurd rfl hne
    | cons x xs => simp
  obtain ⟨data2, completed2, reason, heq, hiff, hdata⟩ :=
    downloadLoop_spec symbols start_ms hnd stream
      (symbols.map (fun s => (s, []))) [] hsym hkeys
      (fun s hs => absurd hs (List.not_mem_nil s)) List.nodup_nil hlt
  refine ⟨data2, completed2, reason, heq, ?_, ?_⟩
  · rw [hiff]
    constructor
    · intro h s hs
      rcases h s hs with hc | h2
      · exact absurd hc (List.not_mem_nil s)
      · exact h2
    · intro h s hs
      exact Or.inr (h s hs)
  · intro htimeout s hs
    rw [hdata htimeout s, histLookup_init, if_pos hs]
    rfl

/-- Witness for C5: symbols `[X, Y]`, window start 0; X delivers a
single zero-close sentinel candle, Y never responds; the loop returns
(with the timeout reason, only X having signalled). -/
theorem download_historical_terminates_witness :
    ((["X", "Y"] : List String) ≠ [] ∧
      (["X", "Y"] : List String).Nodup ∧
      (∀ c ∈ [(⟨"X", 5, 0, []⟩ : Candle)],
        extractSymbol c.event_symbol ∈ (["X", "Y"] : List String))) ∧
    ∃ data completed reason,
      downloadHistoricalData ["X", "Y"] 0 [⟨"X", 5, 0, []⟩] =
        Except.ok (data, completed, reason) ∧
      (reason = StopReason.allComplete ↔
        ∀ s ∈ (["X", "Y"] : List String),
          ∃ c ∈ [(⟨"X", 5, 0, []⟩ : Candle)],
            extractSymbol c.event_symbol = s ∧
              (c.time < 0 ∨ c.close = 0)) ∧
      (reason = StopReason.timeout →
        ∀ s ∈ (["X", "Y"] : List String), histLookup data s =
          some ((([(⟨"X", 5, 0, []⟩ : Candle)].filter (fun c =>
            extractSymbol c.event_symbol == s &&
              keptCandle 0 c)).map Candle.payload))) :=
  ⟨⟨by decide, by decide, by decide⟩,
    download_historical_terminates ["X", "Y"] 0 [⟨"X", 5, 0, []⟩]
      (by decide) (by decide) (by decide)⟩


/-! ### Per-symbol mapping and storing (C4) -/

theorem mapSymbolRow_shape {s : Symbol} {r : CombinedRow} {d : PyDict}
    (h : mapSymbolRow s r = Except.ok d) :
    ∃ e1 e2, d = mapRowList s r e1 e2 := by
  unfold mapSymbolRow at h
  cases h1 : (if (metricsField r "earnings").truthy then
      pyAttrGet (metricsField r "earnings") "expected_report_date"
    else Except.ok PyLeaf.none_) with
  | error e =>
      rw [h1] at h
      cases h2 : (if (metricsField r "earnings").truthy then
          pyAttrGet (metricsField r "earnings") "time_of_day"
        else Except.ok PyLeaf.none_) with
      | error e2 => rw [h2] at h; cases h
      | ok e2 => rw [h2] at h; cases h
  | ok e1 =>
      rw [h1] at h
      cases h2 : (if (metricsField r "earnings").truthy then
          pyAttrGet (metricsField r "earnings") "time_of_day"
        else Except.ok PyLeaf.none_) with
      | error e => rw [h2] at h; cases h
      | ok e2 =>
          rw [h2] at h
          cases h
          exact ⟨e1, e2, rfl⟩

theorem storeMetricData_fallback (dbOk : Bool) (s : Symbol) :
    storeMetricData dbOk (fallbackDict s) = Except.ok (fallbackRow s) := by
  cases dbOk <;> rfl

theorem metricsField_safe {r : CombinedRow}
    (hm : ∀ d, r.metrics = some d → SafeMetricsPayload d) {key : String}
    (hkey : key ∈ metricsSourceKeys) : NumOrNoneVal (metricsField r key) := by
  unfold metricsField
  cases hd : r.metrics with
  | none => exact Or.inl rfl
  | some d => exact hm d hd key hkey

theorem marketField_safe {r : CombinedRow}
    (hq : ∀ d, r.market_data = some d → SafeMarketPayload d) {key : String}
    (hkey : key ∈ marketSourceKeys) : NumOrNoneVal (marketField r key) := by
  unfold marketField
  cases hd : r.market_data with
  | none => exact Or.inl rfl
  | some d => exact hq d hd key hkey

theorem mapRowList_store_safe (s : Symbol) (r : CombinedRow)
    (e1 e2 : PyLeaf) (hsafe : RowSafe r) :
    ∀ k ∈ metricNumericKeys, NumOrNoneVal (pyGet (mapRowList s r e1 e2) k) := by
  obtain ⟨hm, hq⟩ := hsafe
  intro k hk
  fin_cases hk
  · exact marketField_safe hq (by decide)
  · exact marketField_safe hq (by decide)
  · exact marketField_safe hq (by decide)
  · exact marketField_safe hq (by decide)
  · exact marketField_safe hq (by decide)
  · exact metricsField_safe hm (by decide)
  · exact metricsField_safe hm (by decide)
  · exact metricsField_safe hm (by decide)
  · exact metricsField_safe hm (by decide)
  · exact metricsField_safe hm (by decide)
  · exact metricsField_safe hm (by decide)
  · exact metricsField_safe hm (by decide)
  · exact metricsField_safe hm (by decide)
  · exact metricsField_safe hm (by decide)
  · exact metricsField_safe hm (by decide)
  · exact metricsField_safe hm (by decide)

theorem storeOne_ok (dbOk : Bool) (p : Symbol × CombinedRow)
    (hsafe : RowSafe p.2) :
    ∃ row, StoredMatch dbOk p row ∧
      (match mapSymbolRow p.1 p.2 with
        | Except.ok d => storeMetricData dbOk d
        | Except.error _ => storeMetricData dbOk (fallbackDict p.1)) =
        Except.ok row := by
  cases hmap : mapSymbolRow p.1 p.2 with
  | error e =>
      refine ⟨fallbackRow p.1, ?_, ?_⟩
      · unfold StoredMatch
        rw [hmap]
      · exact storeMetricData_fallback dbOk p.1
  | ok d =>
      obtain ⟨e1, e2, rfl⟩ := mapSymbolRow_shape hmap
      obtain ⟨row, hrow⟩ := storeMetricData_ok dbOk _
        (mapRowList_store_safe p.1 p.2 e1 e2 hsafe)
      refine ⟨row, ?_, hrow⟩
      unfold StoredMatch
      rw [hmap]
      exact hrow


theorem storeCombined_ok (dbOk : Bool)
    (items : List (Symbol × CombinedRow))
    (hsafe : ∀ p ∈ items, RowSafe p.2) :
    ∃ rows, storeCombined dbOk items = Except.ok rows ∧
      List.Forall₂ (StoredMatch dbOk) items rows := by
  induction items with
  | nil => exact ⟨[], rfl, List.Forall₂.nil⟩
  | cons p rest ih =>
      obtain ⟨row, hmatch, hstore⟩ :=
        storeOne_ok dbOk p (hsafe p (List.mem_cons_self p rest))
      obtain ⟨rows, hrows, hfa⟩ :=
        ih (fun q hq => hsafe q (List.mem_cons_of_mem p hq))
      refine ⟨row :: rows, ?_, List.Forall₂.cons hmatch hfa⟩
      unfold storeCombined
      rw [show storeMetricData dbOk
          (match mapSymbolRow p.1 p.2 with
            | Except.ok d => d
            | Except.error _ => fallbackDict p.1) =
          (match mapSymbolRow p.1 p.2 with
            | Except.ok d => storeMetricData dbOk d
            | Except.error _ => storeMetricData dbOk (fallbackDict p.1))
        from by cases mapSymbolRow p.1 p.2 <;> rfl, hstore, hrows]

/-! ### Safety of combined rows -/

theorem mem_updValue {d : CombinedDict} {k : Symbol}
    {f : CombinedRow → CombinedRow} {p : Symbol × CombinedRow}
    (h : p ∈ updValue d k f) :
    ∃ p0 ∈ d, p = p0 ∨ p = (p0.1, f p0.2) := by
  obtain ⟨p0, hp0, heq⟩ := List.mem_map.mp h
  by_cases hk : (p0.1 == k) = true
  · rw [if_pos hk] at heq
    exact ⟨p0, hp0, Or.inr heq.symm⟩
  · rw [if_neg hk] at heq
    exact ⟨p0, hp0, Or.inl heq.symm⟩

theorem mem_combineMetricsStep {acc : CombinedDict} {m : MetricsRec}
    {p : Symbol × CombinedRow} (h : p ∈ combineMetricsStep acc m) :
    p ∈ acc ∨ p.2 = ⟨m.symbol, some m.payload, none⟩ := by
  unfold combineMetricsStep dictSet at h
  by_cases hk : dictHasKey acc m.symbol
  · rw [if_pos hk] at h
    obtain ⟨p0, hp0, hor⟩ := mem_updValue h
    rcases hor with rfl | rfl
    · exact Or.inl hp0
    · exact Or.inr rfl
  · rw [if_neg hk] at h
    rcases List.mem_append.mp h with h1 | h1
    · exact Or.inl h1
    · rcases List.mem_singleton.mp h1 with rfl
      exact Or.inr rfl

theorem mem_combineMarketStep {acc : CombinedDict} {q : MarketRec}
    {p : Symbol × CombinedRow} (h : p ∈ combineMarketStep acc q) :
    (∃ p0 ∈ acc, p = p0 ∨
      p.2 = { p0.2 with market_data := some q.payload }) ∨
    p.2 = ⟨q.symbol, none, some q.payload⟩ := by
  unfold combineMarketStep at h
  by_cases hk : dictHasKey acc q.symbol
  · rw [if_pos hk] at h
    obtain ⟨p0, hp0, hor⟩ := mem_updValue h
    rcases hor with heq | heq
    · exact Or.inl ⟨p0, hp0, Or.inl heq⟩
    · refine Or.inl ⟨p0, hp0, Or.inr ?_⟩
      rw [heq]
  · rw [if_neg hk] at h
    rcases List.mem_append.mp h with h1 | h1
    · exact Or.inl ⟨p, h1, Or.inl rfl⟩
    · rcases List.mem_singleton.mp h1 with rfl
      exact Or.inr rfl

theorem foldl_metrics_rows_safe (ms : List MetricsRec)
    (hm : ∀ m ∈ ms, SafeMetricsPayload m.payload) (acc : CombinedDict)
    (hacc : ∀ p ∈ acc, RowSafe p.2) :
    ∀ p ∈ ms.foldl combineMetricsStep acc, RowSafe p.2 := by
  induction ms generalizing acc with
  | nil => exact hacc
  | cons m rest ih =>
      refine ih (fun m2 hm2 => hm m2 (List.mem_cons_of_mem m hm2)) _ ?_
      intro p hp
      rcases mem_combineMetricsStep hp with h1 | h1
      · exact hacc p h1
      · rw [h1]
        constructor
        · intro d hd
          cases hd
          exact hm m (List.mem_cons_self m rest)
        · intro d hd
          cases hd

theorem foldl_market_rows_safe (qs : List MarketRec)
    (hq : ∀ q ∈ qs, SafeMarketPayload q.payload) (acc : CombinedDict)
    (hacc : ∀ p ∈ acc, RowSafe p.2) :
    ∀ p ∈ qs.foldl combineMarketStep acc, RowSafe p.2 := by
  induction qs generalizing acc with
  | nil => exact hacc
  | cons q rest ih =>
      refine ih (fun q2 hq2 => hq q2 (List.mem_cons_of_mem q hq2)) _ ?_
      intro p hp
      rcases mem_combineMarketStep hp with ⟨p0, hp0, hor⟩ | h1
      · rcases hor with heq | h2
        · rw [heq]
          exact hacc p0 hp0
        · rw [h2]
          obtain ⟨hm0, hq0⟩ := hacc p0 hp0
          constructor
          · intro d hd
            exact hm0 d hd
          · intro d hd
            cases hd
            exact hq q (List.mem_cons_self q rest)
      · rw [h1]
        constructor
        · intro d hd
          cases hd
        · intro d hd
          cases hd
          exact hq q (List.mem_cons_self q rest)

theorem combineData_rows_safe (ms : List MetricsRec)
    (qs : List MarketRec)
    (hm : ∀ m ∈ ms, SafeMetricsPayload m.payload)
    (hq : ∀ q ∈ qs, SafeMarketPayload q.payload) :
    ∀ p ∈ combineData ms qs, RowSafe p.2 := by
  unfold combineData
  exact foldl_market_rows_safe qs hq _
    (foldl_metrics_rows_safe ms hm [] (fun p hp => absurd hp
      (List.not_mem_nil p)))


theorem fetch_foldl_metrics_mem (env : ApiEnv) (n : Nat) (d : ℚ)
    (ps : List (Nat × List Symbol)) (acc : List MetricsRec × Nat) :
    ∀ r ∈ (ps.foldl (fun acc p =>
      match env.metricsRet p.2 with
      | Except.ok metrics_data =>
          (acc.1 ++ metrics_data,
            acc.2 + if p.1 + 1 < n ∧ 0 < d then 1 else 0)
      | Except.error _ => acc) acc).1,
      r ∈ acc.1 ∨
        ∃ ch recs, env.metricsRet ch = Except.ok recs ∧ r ∈ recs := by
  induction ps generalizing acc with
  | nil => exact fun r hr => Or.inl hr
  | cons p rest ih =>
      intro r hr
      simp only [List.foldl_cons] at hr
      cases hret : env.metricsRet p.2 with
      | ok md =>
          rw [hret] at hr
          rcases ih _ r hr with h1 | h2
          · rcases List.mem_append.mp h1 with h3 | h3
            · exact Or.inl h3
            · exact Or.inr ⟨p.2, md, hret, h3⟩
          · exact Or.inr h2
      | error e =>
          rw [hret] at hr
          exact ih _ r hr

theorem fetch_foldl_market_mem (env : ApiEnv) (n : Nat) (d : ℚ)
    (ps : List (Nat × List Symbol)) (acc : List MarketRec × Nat) :
    ∀ r ∈ (ps.foldl (fun acc p =>
      match env.marketRet p.2 with
      | Except.ok market_data =>
          (acc.1 ++ market_data,
            acc.2 + if p.1 + 1 < n ∧ 0 < d then 1 else 0)
      | Except.error _ => acc) acc).1,
      r ∈ acc.1 ∨
        ∃ ch recs, env.marketRet ch = Except.ok recs ∧ r ∈ recs := by
  induction ps generalizing acc with
  | nil => exact fun r hr => Or.inl hr
  | cons p rest ih =>
      intro r hr
      simp only [List.foldl_cons] at hr
      cases hret : env.marketRet p.2 with
      | ok md =>
          rw [hret] at hr
          rcases ih _ r hr with h1 | h2
          · rcases List.mem_append.mp h1 with h3 | h3
            · exact Or.inl h3
            · exact Or.inr ⟨p.2, md, hret, h3⟩
          · exact Or.inr h2
      | error e =>
          rw [hret] at hr
          exact ih _ r hr

theorem fetchMetricsInBatches_safe (env : ApiEnv)
    (symbols_list : List Symbol) (d : ℚ)
    (hsafe : ∀ ch recs, env.metricsRet ch = Except.ok recs →
      ∀ r ∈ recs, SafeMetricsPayload r.payload) :
    ∀ r ∈ (fetchMetricsInBatches env symbols_list d).1,
      SafeMetricsPayload r.payload := by
  intro r hr
  unfold fetchMetricsInBatches at hr
  rcases fetch_foldl_metrics_mem env _ d _ ([], 0) r hr with
    h1 | ⟨ch, recs, hret, hrec⟩
  · cases h1
  · exact hsafe ch recs hret r hrec

theorem fetchMarketDataInBatches_safe (env : ApiEnv)
    (symbols_list : List Symbol) (d : ℚ)
    (hsafe : ∀ ch recs, env.marketRet ch = Except.ok recs →
      ∀ r ∈ recs, SafeMarketPayload r.payload) :
    ∀ r ∈ (fetchMarketDataInBatches env symbols_list d).1,
      SafeMarketPayload r.payload := by
  intro r hr
  unfold fetchMarketDataInBatches at hr
  rcases fetch_foldl_market_mem env _ d _ ([], 0) r hr with
    h1 | ⟨ch, recs, hret, hrec⟩
  · cases h1
  · exact hsafe ch recs hret r hrec

/-- C4: in `_process_symbol_batch`, with API payloads of the documented
shape (numeric source fields are numbers or `None`), the batch never
aborts: for every symbol of the combined mapping a row is stored —
the mapped `metrics_dict` row when its construction succeeded, the
minimal symbol-only fallback row when it raised (all three `except`
arms) — and the number of store calls equals the number of symbols of
the combined data, never silently fewer; a database failure inside
`store_metric_data` (`dbOk = false`) is caught there and changes
nothing.  `gather_metrics` calls this once per outer batch and
concatenates the rows, so the run total is the sum over batches. -/
theorem process_symbol_batch_stores_every_symbol (env : ApiEnv)
    (dbOk : Bool) (symbols_batch : List Symbol) (d : ℚ)
    (hsafeM : ∀ ch recs, env.metricsRet ch = Except.ok recs →
      ∀ r ∈ recs, SafeMetricsPayload r.payload)
    (hsafeQ : ∀ ch recs, env.marketRet ch = Except.ok recs →
      ∀ r ∈ recs, SafeMarketPayload r.payload) :
    ∃ dict rows,
      processSymbolBatch env dbOk symbols_batch d =
        Except.ok (dict, rows) ∧
      rows.length = dict.length ∧
      List.Forall₂ (StoredMatch dbOk) dict rows := by
  have hrowsafe := combineData_rows_safe
    (fetchMetricsInBatches env symbols_batch d).1
    (fetchMarketDataInBatches env symbols_batch d).1
    (fetchMetricsInBatches_safe env symbols_batch d hsafeM)
    (fetchMarketDataInBatches_safe env symbols_batch d hsafeQ)
  obtain ⟨rows, hrows, hfa⟩ := storeCombined_ok dbOk _ hrowsafe
  refine ⟨_, rows, ?_, hfa.length_eq.symm, hfa⟩
  have hdef : processSymbolBatch env dbOk symbols_batch d =
      (storeCombined dbOk
        (combineData (fetchMetricsInBatches env symbols_batch d).1
          (fetchMarketDataInBatches env symbols_batch d).1)).bind
        (fun rows => Except.ok
          (combineData (fetchMetricsInBatches env symbols_batch d).1
            (fetchMarketDataInBatches env symbols_batch d).1, rows)) :=
    rfl
  rw [hdef, hrows]
  rfl

/-- Witness for C4: one symbol, every fetch raising (an empty combined
mapping — zero symbols, zero rows); hypotheses hold vacuously. -/
theorem process_symbol_batch_stores_every_symbol_witness :
    ((∀ ch recs, envAllFail.metricsRet ch = Except.ok recs →
        ∀ r ∈ recs, SafeMetricsPayload r.payload) ∧
      (∀ ch recs, envAllFail.marketRet ch = Except.ok recs →
        ∀ r ∈ recs, SafeMarketPayload r.payload)) ∧
    ∃ dict rows,
      processSymbolBatch envAllFail true ["A"] 1 =
        Except.ok (dict, rows) ∧
      rows.length = dict.length ∧
      List.Forall₂ (StoredMatch true) dict rows :=
  ⟨⟨fun ch recs h => Except.noConfusion h,
      fun ch recs h => Except.noConfusion h⟩,
    process_symbol_batch_stores_every_symbol envAllFail true ["A"] 1
      (fun ch recs h => Except.noConfusion h)
      (fun ch recs h => Except.noConfusion h)⟩


/-! ### Partial failure tolerance of the whole run (C1) -/

theorem fetch_foldl_market_syms (env : ApiEnv) (n : Nat) (d : ℚ)
    (ps : List (Nat × List Symbol)) (acc : List MarketRec × Nat)
    (h : ∀ p ∈ ps, ∃ recs, env.marketRet p.2 = Except.ok recs ∧
      recs.map MarketRec.symbol = p.2) :
    ((ps.foldl (fun acc p =>
      match env.marketRet p.2 with
      | Except.ok market_data =>
          (acc.1 ++ market_data,
            acc.2 + if p.1 + 1 < n ∧ 0 < d then 1 else 0)
      | Except.error _ => acc) acc).1).map MarketRec.symbol =
      acc.1.map MarketRec.symbol ++ (ps.map Prod.snd).flatten := by
  induction ps generalizing acc with
  | nil => simp
  | cons p rest ih =>
      obtain ⟨recs, hret, hsyms⟩ := h p (List.mem_cons_self p rest)
      simp only [List.foldl_cons, hret, List.map_cons, List.flatten_cons]
      rw [ih _ (fun q hq => h q (List.mem_cons_of_mem p hq))]
      simp [hsyms, List.append_assoc]

theorem fetchMarketDataInBatches_symbols (env : ApiEnv)
    (symbols_list : List Symbol) (d : ℚ)
    (h : ∀ ch ∈ chunkSymbols symbols_list 10,
      ∃ recs, env.marketRet ch = Except.ok recs ∧
        recs.map MarketRec.symbol = ch) :
    ((fetchMarketDataInBatches env symbols_list d).1).map
      MarketRec.symbol = symbols_list := by
  unfold fetchMarketDataInBatches
  rw [fetch_foldl_market_syms env _ d _ ([], 0)
    (fun p hp => h p.2 (snd_mem_of_mem_enum hp))]
  rw [List.enum_map_snd]
  have hfl := chunkSymbols_flatten symbols_list 10
  rw [if_neg (by omega : ¬ (10 : Nat) = 0)] at hfl
  simp [hfl]

theorem mem_keys_combineData_of_market (ms : List MetricsRec)
    (qs : List MarketRec) (s : Symbol)
    (hs : s ∈ qs.map MarketRec.symbol) :
    s ∈ dictKeys (combineData ms qs) := by
  obtain ⟨q, hfq, hqm, hqs⟩ := reverse_find?_of_mem_symbols_q hs
  by_contra hno
  have hnone := (findVal_eq_none_iff _ s).mpr hno
  rw [findVal_combineData, hfq] at hnone
  cases hfm : ms.reverse.find? (fun m => m.symbol == s) with
  | some m => rw [hfm] at hnone; cases hnone
  | none => rw [hfm] at hnone; cases hnone

theorem dictKeys_dictSet (d : CombinedDict) (k : Symbol)
    (v : CombinedRow) :
    dictKeys (dictSet d k v) =
      if dictHasKey d k then dictKeys d else dictKeys d ++ [k] := by
  unfold dictSet
  by_cases hk : dictHasKey d k
  · rw [if_pos hk, if_pos hk, dictKeys_updValue]
  · rw [if_neg hk, if_neg hk, dictKeys_append_single]

theorem mem_dictKeys_dictSet_of_mem {d : CombinedDict} {k : Symbol}
    {v : CombinedRow} {s : Symbol} (h : s ∈ dictKeys d) :
    s ∈ dictKeys (dictSet d k v) := by
  rw [dictKeys_dictSet]
  by_cases hk : dictHasKey d k
  · rwa [if_pos hk]
  · rw [if_neg hk]
    exact List.mem_append_left _ h

theorem mem_dictKeys_dictSet_self (d : CombinedDict) (k : Symbol)
    (v : CombinedRow) : k ∈ dictKeys (dictSet d k v) := by
  rw [dictKeys_dictSet]
  by_cases hk : dictHasKey d k
  · rw [if_pos hk]
    exact (dictHasKey_iff d k).mp hk
  · rw [if_neg hk]
    exact List.mem_append_right _ (List.mem_singleton.mpr rfl)

theorem dictUpdate_cons (d : CombinedDict) (p : Symbol × CombinedRow)
    (rest : CombinedDict) :
    dictUpdate d (p :: rest) = dictUpdate (dictSet d p.1 p.2) rest := rfl

theorem dictUpdate_keys_mono {d : CombinedDict} {batch : CombinedDict}
    {s : Symbol} (h : s ∈ dictKeys d) :
    s ∈ dictKeys (dictUpdate d batch) := by
  induction batch generalizing d with
  | nil => exact h
  | cons p rest ih =>
      rw [dictUpdate_cons]
      exact ih (mem_dictKeys_dictSet_of_mem h)

theorem dictUpdate_keys_sub {d : CombinedDict} {batch : CombinedDict}
    {s : Symbol} (h : s ∈ dictKeys batch) :
    s ∈ dictKeys (dictUpdate d batch) := by
  induction batch generalizing d with
  | nil => cases h
  | cons p rest ih =>
      rw [dictUpdate_cons]
      rcases List.mem_cons.mp h with heq | hmem
      · apply dictUpdate_keys_mono
        rw [heq]
        exact mem_dictKeys_dictSet_self d p.1 p.2
      · exact ih hmem

theorem chunkSymbols_chunk_props {α : Type} {l : List α} {c : Nat}
    {ch : List α} (h : ch ∈ chunkSymbols l c) :
    ch ≠ [] ∧ ∀ a ∈ ch, a ∈ l := by
  unfold chunkSymbols at h
  by_cases hc : c = 0
  · rw [if_pos hc] at h
    cases h
  · rw [if_neg hc] at h
    obtain ⟨i, hi, rfl⟩ := List.mem_map.mp h
    rw [List.mem_range] at hi
    have hc1 : 0 < c := Nat.pos_of_ne_zero hc
    have hmul : (i + 1) * c ≤ l.length + c - 1 := by
      rw [← Nat.le_div_iff_mul_le hc1]
      omega
    have hlt : i * c < l.length := by
      have hsucc : (i + 1) * c = i * c + c := by ring
      have hcc := Nat.one_le_iff_ne_zero.mpr hc
      omega
    constructor
    · intro hnil
      have hlen : ((l.drop (i * c)).take c).length = 0 := by
        rw [hnil]; rfl
      rw [List.length_take, List.length_drop] at hlen
      omega
    · intro a ha
      exact List.drop_subset _ l (List.take_subset _ _ ha)

theorem exists_slice_mem (l : List Symbol) (spb : Nat) (hspb : 0 < spb)
    (s : Symbol) (hs : s ∈ l) :
    ∃ i ∈ List.range ((l.length + spb - 1) / spb),
      s ∈ (l.drop (i * spb)).take spb := by
  have hfl := chunkSymbols_flatten l spb
  rw [if_neg (Nat.pos_iff_ne_zero.mp hspb)] at hfl
  rw [← hfl] at hs
  obtain ⟨ch, hch, hsch⟩ := List.mem_flatten.mp hs
  unfold chunkSymbols at hch
  rw [if_neg (Nat.pos_iff_ne_zero.mp hspb)] at hch
  obtain ⟨i, hi, rfl⟩ := List.mem_map.mp hch
  exact ⟨i, hi, hsch⟩


theorem processSymbolBatch_ok_covers (env : ApiEnv) (dbOk : Bool)
    (symbols_batch : List Symbol) (d : ℚ)
    (hsafeM : ∀ ch recs, env.metricsRet ch = Except.ok recs →
      ∀ r ∈ recs, SafeMetricsPayload r.payload)
    (hsafeQ : ∀ ch recs, env.marketRet ch = Except.ok recs →
      ∀ r ∈ recs, SafeMarketPayload r.payload)
    (hQ : ∀ ch ∈ chunkSymbols symbols_batch 10,
      ∃ recs, env.marketRet ch = Except.ok recs ∧
        recs.map MarketRec.symbol = ch) :
    ∃ dict rows,
      processSymbolBatch env dbOk symbols_batch d =
        Except.ok (dict, rows) ∧
      ∀ s ∈ symbols_batch, s ∈ dictKeys dict := by
  have hrowsafe := combineData_rows_safe
    (fetchMetricsInBatches env symbols_batch d).1
    (fetchMarketDataInBatches env symbols_batch d).1
    (fetchMetricsInBatches_safe env symbols_batch d hsafeM)
    (fetchMarketDataInBatches_safe env symbols_batch d hsafeQ)
  obtain ⟨rows, hrows, hfa⟩ := storeCombined_ok dbOk _ hrowsafe
  refine ⟨combineData (fetchMetricsInBatches env symbols_batch d).1
    (fetchMarketDataInBatches env symbols_batch d).1, rows, ?_, ?_⟩
  · have hdef : processSymbolBatch env dbOk symbols_batch d =
        (storeCombined dbOk
          (combineData (fetchMetricsInBatches env symbols_batch d).1
            (fetchMarketDataInBatches env symbols_batch d).1)).bind
          (fun rows => Except.ok
            (combineData (fetchMetricsInBatches env symbols_batch d).1
              (fetchMarketDataInBatches env symbols_batch d).1, rows)) :=
      rfl
    rw [hdef, hrows]
    rfl
  · intro s hs
    apply mem_keys_combineData_of_market
    rw [fetchMarketDataInBatches_symbols env symbols_batch d hQ]
    exact hs

theorem gather_foldlM_covers
    (f : (CombinedDict × List (List SqlVal)) → Nat →
      Except PyErr (CombinedDict × List (List SqlVal)))
    (P : Nat → Symbol → Prop)
    (hstep : ∀ st i, ∃ st2, f st i = Except.ok st2 ∧
      (∀ s, s ∈ dictKeys st.1 → s ∈ dictKeys st2.1) ∧
      (∀ s, P i s → s ∈ dictKeys st2.1)) :
    ∀ (l : List Nat) (st : CombinedDict × List (List SqlVal)),
      ∃ st2, l.foldlM f st = Except.ok st2 ∧
        (∀ s, s ∈ dictKeys st.1 → s ∈ dictKeys st2.1) ∧
        (∀ i ∈ l, ∀ s, P i s → s ∈ dictKeys st2.1) := by
  intro l
  induction l with
  | nil =>
      exact fun st => ⟨st, rfl, fun s h => h,
        fun i hi => absurd hi (List.not_mem_nil i)⟩
  | cons i rest ih =>
      intro st
      obtain ⟨st1, hf, hmono1, hP1⟩ := hstep st i
      obtain ⟨st2, hfold, hmono2, hP2⟩ := ih st1
      refine ⟨st2, ?_, fun s h => hmono2 s (hmono1 s h), ?_⟩
      · rw [List.foldlM_cons, hf]
        exact hfold
      · intro j hj s hP
        rcases List.mem_cons.mp hj with rfl | hjr
        · exact hmono2 s (hP1 s hP)
        · exact hP2 j hjr s hP

/-- C1: under one designated failed metrics chunk fetch — the fetch of
chunk `cf` raises, every other chunk fetch of either kind succeeds
(market fetches returning one record per requested symbol with
numeric-or-`None` fields) — `gather_metrics` does not propagate the
exception: it returns, and its mapping contains a combined row for every
symbol outside the failed chunk, across all chunks and batches (the
failed chunk is skipped and processing continues). -/
theorem gather_metrics_partial_failure (env : ApiEnv) (dbOk : Bool)
    (symbols_list : List Symbol) (symbols_per_batch : Nat) (d db : ℚ)
    (verbose : Bool) (cf : List Symbol)
    (hsess : env.sessionOk = true) (hspb : 0 < symbols_per_batch)
    (hcf : ∃ i ∈ List.range
        ((symbols_list.length + symbols_per_batch - 1) /
          symbols_per_batch),
      cf ∈ chunkSymbols
        ((symbols_list.drop (i * symbols_per_batch)).take
          symbols_per_batch) 10)
    (hMfail : ∃ e, env.metricsRet cf = Except.error e)
    (hMok : ∀ ch, ch ≠ cf →
      ∃ recs, env.metricsRet ch = Except.ok recs ∧
        ∀ r ∈ recs, SafeMetricsPayload r.payload)
    (hQok : ∀ ch, ∃ recs, env.marketRet ch = Except.ok recs ∧
      recs.map MarketRec.symbol = ch ∧
        ∀ r ∈ recs, SafeMarketPayload r.payload) :
    ∃ dict rows,
      gatherMetrics env dbOk symbols_list symbols_per_batch d db
        verbose = Except.ok (dict, rows) ∧
      ∀ s ∈ symbols_list, s ∉ cf → s ∈ dictKeys dict := by
  have hsafeM : ∀ ch recs, env.metricsRet ch = Except.ok recs →
      ∀ r ∈ recs, SafeMetricsPayload r.payload := by
    intro ch recs hret
    by_cases hch : ch = cf
    · obtain ⟨e, he⟩ := hMfail
      rw [hch, he] at hret
      cases hret
    · obtain ⟨recs2, hret2, hsafe2⟩ := hMok ch hch
      rw [hret2] at hret
      cases hret
      exact hsafe2
  have hsafeQ : ∀ ch recs, env.marketRet ch = Except.ok recs →
      ∀ r ∈ recs, SafeMarketPayload r.payload := by
    intro ch recs hret
    obtain ⟨recs2, hret2, _, hsafe2⟩ := hQok ch
    rw [hret2] at hret
    cases hret
    exact hsafe2
  have hstep : ∀ (st : CombinedDict × List (List SqlVal)) (i : Nat),
      ∃ st2, (do
        let pr ← processSymbolBatch env dbOk
          ((symbols_list.drop (i * symbols_per_batch)).take
            symbols_per_batch) d
        pure (dictUpdate st.1 pr.1, st.2 ++ pr.2) :
          Except PyErr (CombinedDict × List (List SqlVal))) =
        Except.ok st2 ∧
      (∀ s, s ∈ dictKeys st.1 → s ∈ dictKeys st2.1) ∧
      (∀ s,
        s ∈ (symbols_list.drop (i * symbols_per_batch)).take
          symbols_per_batch → s ∈ dictKeys st2.1) := by
    intro st i
    obtain ⟨dicti, rowsi, hpsi, hcovi⟩ := processSymbolBatch_ok_covers
      env dbOk
      ((symbols_list.drop (i * symbols_per_batch)).take
        symbols_per_batch) d hsafeM hsafeQ
      (fun ch _ => by
        obtain ⟨recs, h1, h2, _⟩ := hQok ch
        exact ⟨recs, h1, h2⟩)
    refine ⟨(dictUpdate st.1 dicti, st.2 ++ rowsi), ?_, ?_, ?_⟩
    · rw [show (do
          let pr ← processSymbolBatch env dbOk
            ((symbols_list.drop (i * symbols_per_batch)).take
              symbols_per_batch) d
          pure (dictUpdate st.1 pr.1, st.2 ++ pr.2) :
            Except PyErr (CombinedDict × List (List SqlVal))) =
          (processSymbolBatch env dbOk
            ((symbols_list.drop (i * symbols_per_batch)).take
              symbols_per_batch) d).bind
            (fun pr => Except.ok (dictUpdate st.1 pr.1, st.2 ++ pr.2))
        from rfl, hpsi]
      rfl
    · exact fun s h => dictUpdate_keys_mono h
    · exact fun s h => dictUpdate_keys_sub (hcovi s h)
  obtain ⟨st2, hfold, _, hcov⟩ := gather_foldlM_covers _ _ hstep
    (List.range ((symbols_list.length + symbols_per_batch - 1) /
      symbols_per_batch)) ([], [])
  have hcover : ∀ s ∈ symbols_list, s ∈ dictKeys st2.1 := by
    intro s hs
    obtain ⟨i, hi, hsl⟩ :=
      exists_slice_mem symbols_list symbols_per_batch hspb s hs
    exact hcov i hi s hsl
  have hne : st2.1.length ≠ 0 := by
    obtain ⟨i0, hi0, hcfmem⟩ := hcf
    obtain ⟨hcfne, hcfsub⟩ := chunkSymbols_chunk_props hcfmem
    obtain ⟨a, ha⟩ := List.exists_mem_of_ne_nil cf hcfne
    have hamem : a ∈ symbols_list :=
      List.drop_subset _ symbols_list
        (List.take_subset _ _ (hcfsub a ha))
    have hkey := hcover a hamem
    intro hzero
    rw [List.length_eq_zero] at hzero
    rw [hzero] at hkey
    cases hkey
  refine ⟨st2.1, st2.2, ?_, fun s hs _ => hcover s hs⟩
  unfold gatherMetrics
  rw [hsess]
  simp only [Bool.not_true, Bool.false_eq_true, if_false,
    if_neg (Nat.pos_iff_ne_zero.mp hspb)]
  rw [hfold]
  show (if verbose = true ∧ st2.1.length = 0 then
      (Except.error PyErr.zeroDivisionError : Except PyErr
        (CombinedDict × List (List SqlVal)))
    else Except.ok st2) = Except.ok (st2.1, st2.2)
  rw [if_neg (fun hcon => hne hcon.2)]


theorem gather_metrics_partial_failure_witness :
    ∃ dict rows,
      gatherMetrics envC1 true symbolsC1 1 0 0 true =
        Except.ok (dict, rows) ∧
      ∀ s ∈ symbolsC1, s ∉ (["AAA"] : List Symbol) →
        s ∈ dictKeys dict :=
  gather_metrics_partial_failure envC1 true symbolsC1 1 0 0 true
    ["AAA"] rfl (by decide)
    ⟨0, by decide, by decide⟩
    ⟨PyErr.apiError, rfl⟩
    (fun ch hch =>
      ⟨[], by
        show (if ch = ["AAA"] then
            (Except.error PyErr.apiError :
              Except PyErr (List MetricsRec))
          else Except.ok []) = Except.ok []
        rw [if_neg hch],
        fun r hr => absurd hr (List.not_mem_nil r)⟩)
    (fun ch =>
      ⟨ch.map (fun s => ⟨s, []⟩), rfl,
        by
          simp only [List.map_map]
          exact List.map_id ch,
        fun r hr => by
          obtain ⟨s, _, heq⟩ := List.mem_map.mp hr
          intro k _
          rw [← heq]
          exact Or.inl rfl⟩)

end MarketDataCollector
